import Mathlib

/-!
Verification of the CAMP core (entities/model.py, codecs/yaml.py and the
realization engine) against its natural-language specification.

Modelling conventions:
* Python values parsed from YAML documents (`yaml.safe_load` output) are
  modelled by the inductive `Yaml` below.  Mapping keys are modelled as
  strings; `safe_load` output has unique keys in every mapping, so the
  association lists standing for parsed dicts are assumed duplicate-free
  where they come from a document.
* Python dicts built by the code itself (`{each.name: each for ...}` and
  per-key assignment) are modelled by association lists with CPython
  insert-or-update semantics (`upsert`/`pyDict`).
* Machine integers: Python 2 ints are unbounded, modelled by `Int`.
  Python's `%` and `/` (floor division) agree with `Int.emod`/`Int.ediv`
  whenever the divisor is positive, which is the case at every division
  the code performs (divisors are searched in `range(coverage, 0, -1)`).
* Exceptions are modelled by `Except`.  `PyErr` lists the Python
  exception classes the modelled code can raise.
* Object references between instances (`Instance.feature_provider`,
  `service_providers`) are modelled by instance names: within a
  `Configuration`, instances are stored in a dict keyed by their unique
  names, so a reference into the configuration is determined by its name.
-/

namespace Camp

/-- A parsed YAML value, as produced by `yaml.safe_load`. -/
inductive Yaml where
  | str (s : String)
  | int (n : Int)
  | bool (b : Bool)
  | null
  | list (items : List Yaml)
  | map (entries : List (String × Yaml))

/-- Name of the Python type of a value (`type(item).__name__`), as it
appears in `WrongType` warnings. -/
def Yaml.typeName : Yaml → String
  | .str _ => "str"
  | .int _ => "int"
  | .bool _ => "bool"
  | .null => "NoneType"
  | .list _ => "list"
  | .map _ => "dict"

/-- Python truthiness of a parsed value (`bool(x)`). -/
def Yaml.truthy : Yaml → Bool
  | .str s => s != ""
  | .int n => n != 0
  | .bool b => b
  | .null => false
  | .list xs => !xs.isEmpty
  | .map es => !es.isEmpty

def Yaml.isStr : Yaml → Bool
  | .str _ => true
  | _ => false

/-- A value is a YAML scalar (not a sequence or a mapping). -/
def Yaml.isScalar : Yaml → Bool
  | .str _ => true
  | .int _ => true
  | .bool _ => true
  | .null => true
  | .list _ => false
  | .map _ => false

/-- Python `str(x)` for scalars.  All names occurring in the modelled
scope are scalars; Python's rendering of composite values (`repr` of the
elements) is not modelled and composites are given placeholder renderings. -/
def pyStr : Yaml → String
  | .str s => s
  | .int n => toString n
  | .bool b => if b then "True" else "False"
  | .null => "None"
  | .list _ => "<list>"
  | .map _ => "<dict>"

/-- Structural equality of YAML scalars (Python `==` restricted to the
scalar values that populate variable domains in the modelled scope). -/
def Yaml.scalarEq : Yaml → Yaml → Bool
  | .str s, .str t => s == t
  | .int m, .int n => m == n
  | .bool a, .bool b => a == b
  | .null, .null => true
  | _, _ => false

/-- First-match lookup in an association list (Python dict indexing:
the dicts we model have unique keys). -/
def dictGet {α : Type} : List (String × α) → String → Option α
  | [], _ => none
  | (a, b) :: t, k => if a = k then some b else dictGet t k

/-- CPython dict assignment `d[k] = v`: updating an existing key keeps its
position, a new key is appended. -/
def upsert {α : Type} (d : List (String × α)) (k : String) (v : α) : List (String × α) :=
  if (d.map Prod.fst).contains k then
    d.map (fun p => if p.1 = k then (k, v) else p)
  else d ++ [(k, v)]

/-- Build a CPython dict from a sequence of key/value assignments. -/
def pyDict {α : Type} (pairs : List (String × α)) : List (String × α) :=
  pairs.foldl (fun d p => upsert d p.1 p.2) []

/-- The dict comprehension `{key(x): x for x in xs}`. -/
def dictOf {α : Type} (key : α → String) (xs : List α) : List (String × α) :=
  pyDict (xs.map (fun x => (key x, x)))

/-! ## Entities (camp/entities/model.py) -/

structure Service where
  name : String
deriving DecidableEq

structure Feature where
  name : String
deriving DecidableEq

/-- `Substitution` value object; its constructor asserts that targets,
pattern and replacements are strings, so the fields are `String`s here
(documents with non-string entries are rejected, see `Substitution.make`). -/
structure Substitution where
  targets : List String
  pattern : String
  replacements : List String
deriving DecidableEq

inductive Implementation where
  | dockerFile (path : String)
  | dockerImage (image : String)
deriving DecidableEq

structure Variable where
  name : String
  value_type : Option String
  values : List Yaml
  realization : List Substitution

/-- `Variable.cover`: `width = maximum - minimum`; the divisor is the first
`d` in `range(coverage, 0, -1)` with `width % d == 0` (`next` raises
`StopIteration`, modelled by `none`, when no candidate matches, which can
only happen for `coverage <= 0`); the result is
`[minimum + i * divisor for i in range(width / divisor + 1)]`. -/
def rangeDown (c : Int) : List Int :=
  (List.range c.toNat).map (fun i : Nat => c - (i : Int))

def Variable.cover (minimum maximum coverage : Int) : Option (List Int) :=
  let width := maximum - minimum
  match (rangeDown coverage).find? (fun d => width % d == 0) with
  | none => none
  | some divisor =>
    some ((List.range ((width / divisor + 1).toNat)).map
      (fun i : Nat => minimum + (i : Int) * divisor))

/-- `Variable.value_at`: a domain lookup unless the declared type is
`"Integer"` or the domain is empty, in which case the index itself is the
value.  An out-of-range index (Python `IndexError`) is modelled by `none`. -/
def Variable.value_at (v : Variable) (index : Nat) : Option Yaml :=
  if v.value_type ≠ some "Integer" ∧ 0 < v.values.length then
    v.values[index]?
  else
    some (.int (index : Int))

/-- `Component`: the variables are stored in a dict keyed by their names. -/
structure Component where
  name : String
  provided_features : List Feature
  required_features : List Feature
  provided_services : List Service
  required_services : List Service
  variables_dict : List (String × Variable)
  implementation : Option Implementation

/-- The `Component` constructor: builds the name-keyed variable dict. -/
def Component.make (name : String)
    (provided_features required_features : List Feature)
    (provided_services required_services : List Service)
    (vars : List Variable) (implementation : Option Implementation) : Component :=
  ⟨name, provided_features, required_features, provided_services, required_services,
    dictOf Variable.name vars, implementation⟩

/-- The `variables` property (dict values). -/
def Component.variables (c : Component) : List Variable :=
  c.variables_dict.map Prod.snd

structure Goals where
  services : List Service
  features : List Feature
deriving DecidableEq

/-- `Model`: components are stored in a dict keyed by their names;
constraints are opaque raw expressions. -/
structure Model where
  components_dict : List (String × Component)
  goals : Goals
  constraints : List Yaml

/-- The `Model` constructor. -/
def Model.make (components : List Component) (goals : Goals) (constraints : List Yaml) : Model :=
  ⟨dictOf Component.name components, goals, constraints⟩

def Model.components (m : Model) : List Component :=
  m.components_dict.map Prod.snd

def Model.component_named (m : Model) (name : String) : Option Component :=
  dictGet m.components_dict name

/-- The `services` property: provided then required services of every
component, then the goal services, de-duplicated through a Python `set`
(whose iteration order is unspecified; `dedup` fixes one order — services
compare by name, so every lookup below is order-independent). -/
def Model.services (m : Model) : List Service :=
  ((m.components.foldl
      (fun (acc : List Service) (c : Component) => acc ++ c.provided_services ++ c.required_services) [])
    ++ m.goals.services).dedup

def Model.features (m : Model) : List Feature :=
  ((m.components.foldl
      (fun (acc : List Feature) (c : Component) => acc ++ c.provided_features ++ c.required_features) [])
    ++ m.goals.features).dedup

/-- What `Model.resolve` can return. -/
inductive Resolved where
  | comp (c : Component)
  | serv (s : Service)
  | feat (f : Feature)

def Resolved.rname : Resolved → String
  | .comp c => c.name
  | .serv s => s.name
  | .feat f => f.name

/-- `Model.resolve`: components dict first, then services, then features,
first match wins; `KeyError` (no match) is modelled by `none`. -/
def Model.resolve (m : Model) (identifier : String) : Option Resolved :=
  match m.component_named identifier with
  | some c => some (.comp c)
  | none =>
    match m.services.find? (fun s => s.name == identifier) with
    | some s => some (.serv s)
    | none =>
      match m.features.find? (fun f => f.name == identifier) with
      | some f => some (.feat f)
      | none => none

/-- `Instance`: `feature_provider` and `service_providers` are references
to other instances of the same configuration, modelled by their names;
`configuration` is the ordered list of (variable, chosen value) pairs. -/
structure Instance where
  name : String
  definition : Component
  feature_provider : Option String
  service_providers : List String
  configuration : List (Variable × Yaml)

/-- `Configuration`: instances stored in a dict keyed by their names. -/
structure Configuration where
  instances_dict : List (String × Instance)

/-- The `Configuration` constructor (the `model` argument of the Python
constructor is ignored by the Python code as well). -/
def Configuration.make (instances : List Instance) : Configuration :=
  ⟨dictOf Instance.name instances⟩

def Configuration.resolve (c : Configuration) (identifier : String) : Option Instance :=
  dictGet c.instances_dict identifier

def Configuration.instances (c : Configuration) : List Instance :=
  c.instances_dict.map Prod.snd

def Configuration.instance_count (c : Configuration) : Nat :=
  c.instances_dict.length

/-! ## `Configuration.stacks`

The Python code follows `feature_provider` object references; here a
reference is the provider's name, resolved through the configuration.
`stack_of` mirrors the unguarded `while stack[-1].feature_provider`
loop; the loop has no cycle guard, so the model runs it on explicit
fuel, and the theorems below show that under acyclicity the fuel
`instance_count` is enough and the result is fuel-independent from
there on — i.e. the loop terminates. -/

/-- One step of the `while` loop: the instance the current one's
`feature_provider` reference designates. -/
def Configuration.step (c : Configuration) (i : Instance) : Option Instance :=
  match i.feature_provider with
  | none => none
  | some n => c.resolve n

/-- `top_services`: the instances that are nobody's `feature_provider`
(the Python `is` identity test becomes a name test: instances of a
configuration are identified by their unique names). -/
def Configuration.tops (c : Configuration) : List Instance :=
  c.instances.filter (fun each =>
    c.instances.all (fun i => i.feature_provider != some each.name))

/-- `stack_of`, on fuel: start from the instance and keep appending the
`feature_provider` until there is none (or the fuel runs out). -/
def Configuration.stack_of (c : Configuration) : Nat → Instance → List Instance
  | 0, i => [i]
  | fuel + 1, i =>
    match c.step i with
    | none => [i]
    | some j => i :: c.stack_of fuel j

def Configuration.stacksFuel (c : Configuration) (fuel : Nat) : List (List Instance) :=
  c.tops.map (c.stack_of fuel)

/-- `Configuration.stacks` (the generator is modelled as the list of the
stacks it yields, in order): one stack per top instance. -/
def Configuration.stacks (c : Configuration) : List (List Instance) :=
  c.stacksFuel c.instance_count

/-- `n`-fold iteration of `step` (`none` once the chain has ended). -/
def Configuration.iterStep (c : Configuration) : Nat → Instance → Option Instance
  | 0, i => some i
  | n + 1, i =>
    match c.step i with
    | none => none
    | some j => c.iterStep n j

/-- Every `feature_provider` reference of an instance of the
configuration resolves within the configuration (in Python the reference
is a direct object reference; the modelled scope is configurations whose
references stay inside the configuration). -/
def Configuration.closedB (c : Configuration) : Bool :=
  c.instances.all (fun i =>
    match i.feature_provider with
    | none => true
    | some n => (c.resolve n).isSome)

def Configuration.Closed (c : Configuration) : Prop :=
  c.closedB = true

/-- No instance is reachable from itself by following `feature_provider`
links. -/
def Configuration.Acyclic (c : Configuration) : Prop :=
  ∀ i ∈ c.instances, ¬ Relation.TransGen (fun a b => c.step a = some b) i i

/-! ## Claim C1: `Variable.cover` -/

theorem mem_rangeDown {c x : Int} : x ∈ rangeDown c ↔ 1 ≤ x ∧ x ≤ c := by
  unfold rangeDown
  rw [List.mem_map]
  constructor
  · rintro ⟨i, hi, rfl⟩
    rw [List.mem_range] at hi
    omega
  · rintro ⟨h1, h2⟩
    exact ⟨(c - x).toNat, List.mem_range.mpr (by omega), by omega⟩

theorem rangeDown_pairwise (c : Int) : (rangeDown c).Pairwise (· > ·) := by
  exact (List.pairwise_lt_range c.toNat).map _ (fun a b h => by omega)

/-- `find?` on a strictly descending list returns the largest element
satisfying the predicate. -/
theorem find?_desc_max {p : Int → Bool} :
    ∀ {l : List Int}, l.Pairwise (· > ·) → ∀ {d : Int}, l.find? p = some d →
      ∀ x ∈ l, p x = true → x ≤ d := by
  intro l
  induction l with
  | nil => intro _ d hf; cases hf
  | cons h t ih =>
    intro hpw d hf x hx hpx
    rw [List.pairwise_cons] at hpw
    by_cases hph : p h = true
    · rw [List.find?_cons_of_pos _ hph] at hf
      cases hf
      rcases List.mem_cons.mp hx with rfl | hxt
      · exact le_refl x
      · exact le_of_lt (hpw.1 x hxt)
    · rw [List.find?_cons_of_neg _ hph] at hf
      rcases List.mem_cons.mp hx with rfl | hxt
      · exact absurd hpx hph
      · exact ih hpw.2 hf x hxt hpx

/-- Claim C1, amended: for `coverage ≥ 1` and `maximum ≥ minimum`,
`Variable.cover` returns the ascending arithmetic sequence
`minimum, minimum + d, …, maximum` where `d` is the largest divisor of
`width = maximum - minimum` with `1 ≤ d ≤ coverage` (found searching
downward from `coverage`); the result starts at `minimum`, ends at
`maximum` and is strictly ascending, and `cover 0 10 3 = [0,2,4,6,8,10]`.
(The claimed bound of at most `coverage + 1` elements is dropped: it
fails, see the counterexample.) -/
theorem C1_cover_correct (minimum maximum coverage : Int)
    (hcov : 1 ≤ coverage) (hle : minimum ≤ maximum) :
    ∃ d L, Variable.cover minimum maximum coverage = some L ∧
      1 ≤ d ∧ d ≤ coverage ∧ d ∣ (maximum - minimum) ∧
      (∀ e : Int, d < e → e ≤ coverage → ¬ e ∣ (maximum - minimum)) ∧
      L = (List.range (((maximum - minimum) / d + 1).toNat)).map
            (fun i : Nat => minimum + (i : Int) * d) ∧
      L.head? = some minimum ∧ L.getLast? = some maximum ∧
      L.Pairwise (· < ·) ∧
      Variable.cover 0 10 3 = some [0, 2, 4, 6, 8, 10] := by
  have hwidth : 0 ≤ maximum - minimum := by omega
  set width := maximum - minimum with hw
  have h1mem : (1 : Int) ∈ rangeDown coverage := mem_rangeDown.mpr ⟨le_refl 1, hcov⟩
  have h1p : (width % (1 : Int) == 0) = true := by
    simp [Int.emod_one]
  match hfind : (rangeDown coverage).find? (fun d => width % d == 0) with
  | none =>
    exact absurd (List.find?_eq_none.mp hfind 1 h1mem) (by simp [h1p])
  | some d =>
    have hdmem := List.mem_of_find?_eq_some hfind
    have hdp := List.find?_some hfind
    have hd1 : 1 ≤ d := (mem_rangeDown.mp hdmem).1
    have hdc : d ≤ coverage := (mem_rangeDown.mp hdmem).2
    have hdvd : d ∣ width := by
      refine Int.dvd_of_emod_eq_zero ?_
      simpa using hdp
    have hq0 : 0 ≤ width / d := Int.ediv_nonneg hwidth (by omega)
    have hqtn : ((width / d + 1).toNat) = (width / d).toNat + 1 := by omega
    refine ⟨d, _, ?_, hd1, hdc, hdvd, ?_, rfl, ?_, ?_, ?_, by decide⟩
    · simp only [Variable.cover, ← hw, hfind]
    · intro e hde hec hedvd
      have : e ≤ d := by
        refine find?_desc_max (rangeDown_pairwise coverage) hfind e
          (mem_rangeDown.mpr ⟨by omega, hec⟩) ?_
        simp [Int.emod_eq_zero_of_dvd hedvd]
      omega
    · rw [List.head?_eq_getElem?, List.getElem?_map, List.getElem?_range (by omega)]
      simp
    · rw [List.getLast?_eq_getElem?]
      have hlen : ((List.range ((width / d + 1).toNat)).map
          (fun i : Nat => minimum + (i : Int) * d)).length = (width / d).toNat + 1 := by
        rw [List.length_map, List.length_range, hqtn]
      rw [hlen]
      simp only [Nat.add_sub_cancel]
      rw [List.getElem?_map, List.getElem?_range (by omega)]
      simp only [Option.map_some']
      congr 1
      have hcast : (((width / d).toNat : Int)) = width / d := by omega
      rw [hcast, Int.ediv_mul_cancel hdvd]
      omega
    · refine (List.pairwise_lt_range _).map _ ?_
      intro a b hab
      have : (a : Int) < (b : Int) := by omega
      have := mul_lt_mul_of_pos_right this (by omega : (0:Int) < d)
      omega

/-- Claim C1 is false as stated: with `minimum = 0`, `maximum = 7`,
`coverage = 3` (which satisfy the claim's side conditions) the only
divisor of the width `7` in `{3,2,1}` is `1`, so the result has `8`
elements, exceeding the claimed `coverage + 1 = 4`. -/
theorem C1_counterexample :
    (1 : Int) ≤ 3 ∧ (0 : Int) ≤ 7 ∧
    Variable.cover 0 7 3 = some [0, 1, 2, 3, 4, 5, 6, 7] ∧
    ¬ (([0, 1, 2, 3, 4, 5, 6, 7] : List Int).length ≤ 3 + 1) := by
  refine ⟨by decide, by decide, by decide, by decide⟩

/-- Witness for C1 at the claim's own example `cover(0, 10, 3)`. -/
theorem C1_witness :
    ∃ d L, Variable.cover 0 10 3 = some L ∧
      1 ≤ d ∧ d ≤ 3 ∧ d ∣ ((10 : Int) - 0) ∧
      (∀ e : Int, d < e → e ≤ 3 → ¬ e ∣ ((10 : Int) - 0)) ∧
      L = (List.range ((((10 : Int) - 0) / d + 1).toNat)).map
            (fun i : Nat => 0 + (i : Int) * d) ∧
      L.head? = some 0 ∧ L.getLast? = some 10 ∧
      L.Pairwise (· < ·) ∧
      Variable.cover 0 10 3 = some [0, 2, 4, 6, 8, 10] :=
  C1_cover_correct 0 10 3 (by decide) (by decide)

/-! ## Claim C5: `Variable.value_at` -/

/-- Claim C5: `value_at(i)` returns the domain element at position `i`
unless the declared type is the integer type or the domain is empty, in
which case it returns the index `i` itself. -/
theorem C5_value_at (v : Variable) (i : Nat) :
    (v.value_type ≠ some "Integer" ∧ v.values ≠ [] → v.value_at i = v.values[i]?) ∧
    (v.value_type = some "Integer" ∨ v.values = [] → v.value_at i = some (.int (i : Int))) := by
  constructor
  · rintro ⟨h1, h2⟩
    rw [Variable.value_at, if_pos ⟨h1, List.length_pos.mpr h2⟩]
  · intro h
    rw [Variable.value_at, if_neg]
    rintro ⟨h1, h2⟩
    rcases h with h | h
    · exact h1 h
    · rw [h] at h2
      simp at h2

/-- Witness for C5: a string-typed variable with a two-element domain is
realized by domain lookup; an integer-typed variable by the index itself. -/
theorem C5_witness :
    (Variable.mk "memory" (some "String") [.str "1GB", .str "2GB"] []).value_at 1
        = some (.str "2GB") ∧
    (Variable.mk "instances" (some "Integer") [] []).value_at 5 = some (.int 5) := by
  constructor
  · exact ((C5_value_at (Variable.mk "memory" (some "String") [.str "1GB", .str "2GB"] []) 1).1
      ⟨by decide, by simp⟩).trans rfl
  · exact ((C5_value_at (Variable.mk "instances" (some "Integer") [] []) 5).2 (Or.inl rfl)).trans rfl

/-! ## Dict lemmas (CPython dict semantics) -/

theorem upsert_mem {α : Type} {d : List (String × α)} {k : String} {v : α} {q : String × α}
    (h : q ∈ upsert d k v) : q ∈ d ∨ q = (k, v) := by
  unfold upsert at h
  split at h
  · rcases List.mem_map.mp h with ⟨p, hp, rfl⟩
    by_cases hk : p.1 = k
    · right
      simp [hk]
    · left
      simpa [hk] using hp
  · rcases List.mem_append.mp h with h | h
    · exact Or.inl h
    · exact Or.inr (List.mem_singleton.mp h)

theorem foldl_upsert_mem {α : Type} {ps : List (String × α)} :
    ∀ {acc : List (String × α)} {q : String × α},
      q ∈ ps.foldl (fun d p => upsert d p.1 p.2) acc → q ∈ acc ∨ q ∈ ps := by
  induction ps with
  | nil => intro acc q h; exact Or.inl h
  | cons p t ih =>
    intro acc q h
    rcases @ih (upsert acc p.1 p.2) q h with h' | h'
    · rcases upsert_mem h' with h'' | h''
      · exact Or.inl h''
      · exact Or.inr (List.mem_cons.mpr (Or.inl (by rw [h''])))
    · exact Or.inr (List.mem_cons.mpr (Or.inr h'))

theorem pyDict_mem {α : Type} {ps : List (String × α)} {q : String × α}
    (h : q ∈ pyDict ps) : q ∈ ps := by
  rcases foldl_upsert_mem h with h' | h'
  · cases h'
  · exact h'

theorem dictOf_mem {α : Type} {key : α → String} {xs : List α} {q : String × α}
    (h : q ∈ dictOf key xs) : q.1 = key q.2 ∧ q.2 ∈ xs := by
  rcases List.mem_map.mp (pyDict_mem h) with ⟨x, hx, rfl⟩
  exact ⟨rfl, hx⟩

theorem dictGet_eq_none {α : Type} {d : List (String × α)} {k : String} :
    dictGet d k = none ↔ k ∉ d.map Prod.fst := by
  induction d with
  | nil => simp [dictGet]
  | cons p t ih =>
    rw [dictGet]
    by_cases h : p.1 = k
    · simp [h]
    · simp only [if_neg h, ih, List.map_cons, List.mem_cons]
      constructor
      · intro hk hc
        rcases hc with hc | hc
        · exact h hc.symm
        · exact hk hc
      · intro hk hc
        exact hk (Or.inr hc)

theorem dictGet_mem {α : Type} {d : List (String × α)} {k : String} {v : α}
    (h : dictGet d k = some v) : (k, v) ∈ d := by
  induction d with
  | nil => cases h
  | cons p t ih =>
    rw [dictGet] at h
    split at h
    · cases h
      rename_i heq
      exact List.mem_cons.mpr (Or.inl (by rw [← heq]))
    · exact List.mem_cons.mpr (Or.inr (ih h))

theorem dictGet_of_mem_nodup {α : Type} {d : List (String × α)} {k : String} {v : α}
    (hnd : (d.map Prod.fst).Nodup) (h : (k, v) ∈ d) : dictGet d k = some v := by
  induction d with
  | nil => cases h
  | cons p t ih =>
    rw [List.map_cons, List.nodup_cons] at hnd
    rcases List.mem_cons.mp h with rfl | ht
    · rw [dictGet, if_pos rfl]
    · rw [dictGet]
      have hk : p.1 ≠ k := by
        intro hk
        exact hnd.1 (hk ▸ List.mem_map.mpr ⟨(k, v), ht, rfl⟩)
      rw [if_neg hk]
      exact ih hnd.2 ht

theorem upsert_keys {α : Type} (d : List (String × α)) (k : String) (v : α) :
    (upsert d k v).map Prod.fst =
      if (d.map Prod.fst).contains k then d.map Prod.fst else d.map Prod.fst ++ [k] := by
  unfold upsert
  split
  · rw [List.map_map]
    refine List.map_congr_left ?_
    intro p _
    by_cases hpk : p.1 = k
    · simp [Function.comp, hpk]
    · simp [Function.comp, hpk]
  · rw [List.map_append]
    rfl

theorem upsert_keys_mem {α : Type} {d : List (String × α)} {k k' : String} {v : α} :
    k' ∈ (upsert d k v).map Prod.fst ↔ k' ∈ d.map Prod.fst ∨ k' = k := by
  rw [upsert_keys]
  split
  · rename_i hc
    constructor
    · exact Or.inl
    · rintro (h | rfl)
      · exact h
      · exact List.mem_of_elem_eq_true hc
  · simp

theorem foldl_upsert_keys_mem {α : Type} {ps : List (String × α)} :
    ∀ {acc : List (String × α)} {k : String},
      k ∈ ((ps.foldl (fun d p => upsert d p.1 p.2) acc).map Prod.fst) ↔
        k ∈ acc.map Prod.fst ∨ k ∈ ps.map Prod.fst := by
  induction ps with
  | nil => simp
  | cons p t ih =>
    intro acc k
    rw [List.foldl_cons, ih, upsert_keys_mem, List.map_cons, List.mem_cons]
    tauto

theorem pyDict_keys_mem {α : Type} {ps : List (String × α)} {k : String} :
    k ∈ (pyDict ps).map Prod.fst ↔ k ∈ ps.map Prod.fst := by
  rw [pyDict, foldl_upsert_keys_mem]
  simp

theorem upsert_keys_nodup {α : Type} {d : List (String × α)} {k : String} {v : α}
    (h : (d.map Prod.fst).Nodup) : ((upsert d k v).map Prod.fst).Nodup := by
  rw [upsert_keys]
  split
  · exact h
  · rename_i hc
    refine List.Nodup.append h (List.nodup_singleton k) ?_
    intro a ha hb
    rw [List.mem_singleton] at hb
    subst hb
    exact hc (List.elem_eq_true_of_mem ha)

theorem pyDict_keys_nodup {α : Type} {ps : List (String × α)} :
    ((pyDict ps).map Prod.fst).Nodup := by
  rw [pyDict]
  have : ∀ acc : List (String × α), (acc.map Prod.fst).Nodup →
      ((ps.foldl (fun d p => upsert d p.1 p.2) acc).map Prod.fst).Nodup := by
    induction ps with
    | nil => intro acc h; exact h
    | cons p t ih =>
      intro acc h
      rw [List.foldl_cons]
      exact ih _ (upsert_keys_nodup h)
  exact this [] (by simp)

theorem foldl_upsert_append {α : Type} {ps : List (String × α)} :
    ∀ {acc : List (String × α)}, (∀ q ∈ ps, q.1 ∉ acc.map Prod.fst) →
      (ps.map Prod.fst).Nodup →
      ps.foldl (fun d p => upsert d p.1 p.2) acc = acc ++ ps := by
  induction ps with
  | nil => intro acc _ _; simp
  | cons p t ih =>
    intro acc hdisj hnd
    rw [List.map_cons, List.nodup_cons] at hnd
    have hp1 : ¬ ((acc.map Prod.fst).contains p.1 = true) := by
      intro hc
      exact hdisj p (List.mem_cons_self p t) (List.mem_of_elem_eq_true hc)
    have hupd : upsert acc p.1 p.2 = acc ++ [p] := by
      unfold upsert
      rw [if_neg hp1]
    rw [List.foldl_cons, hupd, ih ?_ hnd.2, List.append_assoc]
    · rfl
    · intro q hq
      rw [List.map_append, List.mem_append]
      rintro (h | h)
      · exact hdisj q (List.mem_cons_of_mem p hq) h
      · rw [List.map_singleton, List.mem_singleton] at h
        exact hnd.1 (h ▸ List.mem_map.mpr ⟨q, hq, rfl⟩)

theorem pyDict_eq_self {α : Type} {ps : List (String × α)}
    (h : (ps.map Prod.fst).Nodup) : pyDict ps = ps := by
  rw [pyDict, foldl_upsert_append (by simp) h, List.nil_append]

theorem dictOf_eq {α : Type} (key : α → String) {xs : List α}
    (h : (xs.map key).Nodup) : dictOf key xs = xs.map (fun x => (key x, x)) := by
  refine pyDict_eq_self ?_
  rw [List.map_map]
  simpa [Function.comp] using h

theorem dictOf_values {α : Type} (key : α → String) {xs : List α}
    (h : (xs.map key).Nodup) : (dictOf key xs).map Prod.snd = xs := by
  rw [dictOf_eq key h, List.map_map]
  have hid : (Prod.snd ∘ fun x : α => (key x, x)) = id := rfl
  rw [hid, List.map_id]

theorem dictGet_dictOf_some {α : Type} {key : α → String} {xs : List α} {k : String} {v : α}
    (h : dictGet (dictOf key xs) k = some v) : key v = k ∧ v ∈ xs := by
  have hm := dictOf_mem (dictGet_mem h)
  exact ⟨hm.1.symm, hm.2⟩

theorem dictGet_dictOf_none {α : Type} {key : α → String} {xs : List α} {k : String} :
    dictGet (dictOf key xs) k = none ↔ ∀ x ∈ xs, key x ≠ k := by
  rw [dictGet_eq_none, dictOf, pyDict_keys_mem, List.map_map]
  constructor
  · intro h x hx hk
    exact h (List.mem_map.mpr ⟨x, hx, hk⟩)
  · intro h hmem
    rcases List.mem_map.mp hmem with ⟨x, hx, hk⟩
    exact h x hx hk

theorem dictGet_dictOf_isSome {α : Type} {key : α → String} {xs : List α} {k : String} {x : α}
    (hx : x ∈ xs) (hk : key x = k) : (dictGet (dictOf key xs) k).isSome := by
  match hget : dictGet (dictOf key xs) k with
  | some _ => rfl
  | none => exact absurd hk (dictGet_dictOf_none.mp hget x hx)

/-! ## Claim C9: `Model.resolve` and `Configuration.resolve` -/

/-- Claim C9: `Model.resolve` is exact-name lookup in order — components
first, then services, then features — returning the stored object on the
first match and a not-found error (`none`, Python `KeyError`) when
nothing matches; `Configuration.resolve` is exact-name instance lookup.
The hypotheses state the dict invariant every Python-constructed
`Model`/`Configuration` has: entries are keyed by their element's name. -/
theorem C9_resolve (m : Model) (cfg : Configuration) (id : String)
    (hm : ∀ p ∈ m.components_dict, p.2.name = p.1)
    (hcfg : ∀ p ∈ cfg.instances_dict, p.2.name = p.1) :
    (∀ r, m.resolve id = some r → r.rname = id) ∧
    (∀ c, m.resolve id = some (.comp c) →
      m.component_named id = some c ∧ c ∈ m.components) ∧
    (∀ s, m.resolve id = some (.serv s) →
      s ∈ m.services ∧ (∀ c ∈ m.components, c.name ≠ id)) ∧
    (∀ f, m.resolve id = some (.feat f) →
      f ∈ m.features ∧ (∀ c ∈ m.components, c.name ≠ id) ∧
      (∀ s ∈ m.services, s.name ≠ id)) ∧
    (m.resolve id = none ↔
      (∀ c ∈ m.components, c.name ≠ id) ∧ (∀ s ∈ m.services, s.name ≠ id) ∧
      (∀ f ∈ m.features, f.name ≠ id)) ∧
    (∀ i, cfg.resolve id = some i → i.name = id ∧ i ∈ cfg.instances) ∧
    (cfg.resolve id = none ↔ ∀ i ∈ cfg.instances, i.name ≠ id) := by
  have hcomp_none : m.component_named id = none ↔ ∀ c ∈ m.components, c.name ≠ id := by
    rw [Model.component_named, dictGet_eq_none]
    constructor
    · intro h c hcm hname
      rcases List.mem_map.mp hcm with ⟨p, hp, rfl⟩
      exact h (List.mem_map.mpr ⟨p, hp, by rw [← hname, hm p hp]⟩)
    · intro h hmem
      rcases List.mem_map.mp hmem with ⟨p, hp, hfst⟩
      exact h p.2 (List.mem_map.mpr ⟨p, hp, rfl⟩) (by rw [hm p hp, hfst])
  have hcomp_some : ∀ c, m.component_named id = some c → c.name = id ∧ c ∈ m.components := by
    intro c h
    have hmem := dictGet_mem h
    exact ⟨hm _ hmem, List.mem_map.mpr ⟨(id, c), hmem, rfl⟩⟩
  have hserv_none : m.services.find? (fun s => s.name == id) = none ↔
      ∀ s ∈ m.services, s.name ≠ id := by
    rw [List.find?_eq_none]
    simp
  have hfeat_none : m.features.find? (fun f => f.name == id) = none ↔
      ∀ f ∈ m.features, f.name ≠ id := by
    rw [List.find?_eq_none]
    simp
  have hcfg_none : cfg.resolve id = none ↔ ∀ i ∈ cfg.instances, i.name ≠ id := by
    rw [Configuration.resolve, dictGet_eq_none]
    constructor
    · intro h i him hname
      rcases List.mem_map.mp him with ⟨p, hp, rfl⟩
      exact h (List.mem_map.mpr ⟨p, hp, by rw [← hname, hcfg p hp]⟩)
    · intro h hmem
      rcases List.mem_map.mp hmem with ⟨p, hp, hfst⟩
      exact h p.2 (List.mem_map.mpr ⟨p, hp, rfl⟩) (by rw [hcfg p hp, hfst])
  have hcfg_some : ∀ i, cfg.resolve id = some i → i.name = id ∧ i ∈ cfg.instances := by
    intro i h
    have hmem := dictGet_mem h
    exact ⟨hcfg _ hmem, List.mem_map.mpr ⟨(id, i), hmem, rfl⟩⟩
  refine ⟨?_, ?_, ?_, ?_, ?_, hcfg_some, hcfg_none⟩
  · intro r hr
    rw [Model.resolve] at hr
    match hcn : m.component_named id with
    | some c =>
      rw [hcn] at hr
      cases hr
      exact (hcomp_some c hcn).1
    | none =>
      rw [hcn] at hr
      match hsf : m.services.find? (fun s => s.name == id) with
      | some s =>
        rw [hsf] at hr
        cases hr
        simpa using List.find?_some hsf
      | none =>
        rw [hsf] at hr
        match hff : m.features.find? (fun f => f.name == id) with
        | some f =>
          rw [hff] at hr
          cases hr
          simpa using List.find?_some hff
        | none =>
          rw [hff] at hr
          cases hr
  · intro c hr
    rw [Model.resolve] at hr
    match hcn : m.component_named id with
    | some c' =>
      rw [hcn] at hr
      cases hr
      exact ⟨rfl, (hcomp_some _ hcn).2⟩
    | none =>
      rw [hcn] at hr
      match hsf : m.services.find? (fun s => s.name == id) with
      | some s => rw [hsf] at hr; cases hr
      | none =>
        rw [hsf] at hr
        match hff : m.features.find? (fun f => f.name == id) with
        | some f => rw [hff] at hr; cases hr
        | none => rw [hff] at hr; cases hr
  · intro s hr
    rw [Model.resolve] at hr
    match hcn : m.component_named id with
    | some c' => rw [hcn] at hr; cases hr
    | none =>
      rw [hcn] at hr
      match hsf : m.services.find? (fun s => s.name == id) with
      | some s' =>
        rw [hsf] at hr
        cases hr
        exact ⟨List.mem_of_find?_eq_some hsf, hcomp_none.mp hcn⟩
      | none =>
        rw [hsf] at hr
        match hff : m.features.find? (fun f => f.name == id) with
        | some f => rw [hff] at hr; cases hr
        | none => rw [hff] at hr; cases hr
  · intro f hr
    rw [Model.resolve] at hr
    match hcn : m.component_named id with
    | some c' => rw [hcn] at hr; cases hr
    | none =>
      rw [hcn] at hr
      match hsf : m.services.find? (fun s => s.name == id) with
      | some s' => rw [hsf] at hr; cases hr
      | none =>
        rw [hsf] at hr
        match hff : m.features.find? (fun f => f.name == id) with
        | some f' =>
          rw [hff] at hr
          cases hr
          exact ⟨List.mem_of_find?_eq_some hff, hcomp_none.mp hcn, hserv_none.mp hsf⟩
        | none => rw [hff] at hr; cases hr
  · constructor
    · intro hr
      rw [Model.resolve] at hr
      match hcn : m.component_named id with
      | some c' => rw [hcn] at hr; cases hr
      | none =>
        rw [hcn] at hr
        match hsf : m.services.find? (fun s => s.name == id) with
        | some s' => rw [hsf] at hr; cases hr
        | none =>
          rw [hsf] at hr
          match hff : m.features.find? (fun f => f.name == id) with
          | some f' => rw [hff] at hr; cases hr
          | none =>
            exact ⟨hcomp_none.mp hcn, hserv_none.mp hsf, hfeat_none.mp hff⟩
    · rintro ⟨h1, h2, h3⟩
      rw [Model.resolve, hcomp_none.mpr h1, hserv_none.mpr h2, hfeat_none.mpr h3]

/-- A concrete component, model, instance and configuration used by
witnesses. -/
def compDb : Component :=
  Component.make "db" [] [] [Service.mk "storage"] [] [] none

def modelW : Model := Model.make [compDb] (Goals.mk [Service.mk "storage"] []) []

def insDb0 : Instance := Instance.mk "db_0" compDb none [] []

def cfgW : Configuration := Configuration.make [insDb0]

/-- Witness for C9: resolving an absent identifier yields the not-found
outcome; resolving a present instance name returns the stored instance. -/
theorem C9_witness :
    modelW.resolve "zzz" = none ∧
    insDb0.name = "db_0" ∧ insDb0 ∈ cfgW.instances := by
  refine ⟨(C9_resolve modelW cfgW "zzz" (by decide) (by decide)).2.2.2.2.1.mpr
    ⟨by decide, by decide, by decide⟩, ?_⟩
  exact (C9_resolve modelW cfgW "db_0" (by decide) (by decide)).2.2.2.2.2.1 insDb0 rfl

/-! ## Claims C4 and C10: `Configuration.stacks` -/

theorem resolve_mem {c : Configuration} {n : String} {j : Instance}
    (h : c.resolve n = some j) : j ∈ c.instances :=
  List.mem_map.mpr ⟨(n, j), dictGet_mem h, rfl⟩

theorem step_mem {c : Configuration} {i j : Instance}
    (h : c.step i = some j) : j ∈ c.instances := by
  rw [Configuration.step] at h
  match hfp : i.feature_provider with
  | none => rw [hfp] at h; cases h
  | some n => rw [hfp] at h; exact resolve_mem h

/-- Under closedness, an instance of the configuration with a
`feature_provider` has a successor. -/
theorem step_isSome_of_fp {c : Configuration} {i : Instance} {n : String}
    (hC : c.Closed) (hi : i ∈ c.instances) (hfp : i.feature_provider = some n) :
    (c.step i).isSome := by
  have h := List.all_eq_true.mp hC i hi
  rw [hfp] at h
  rw [Configuration.step, hfp]
  simpa using h

theorem step_none_fp {c : Configuration} {i : Instance}
    (hC : c.Closed) (hi : i ∈ c.instances) (h : c.step i = none) :
    i.feature_provider = none := by
  match hfp : i.feature_provider with
  | none => rfl
  | some n =>
    have := step_isSome_of_fp hC hi hfp
    rw [h] at this
    cases this

theorem stack_of_zero (c : Configuration) (i : Instance) : c.stack_of 0 i = [i] := rfl

theorem stack_of_succ_none {c : Configuration} {i : Instance} (fuel : Nat)
    (h : c.step i = none) : c.stack_of (fuel + 1) i = [i] := by
  rw [Configuration.stack_of, h]

theorem stack_of_succ_some {c : Configuration} {i j : Instance} (fuel : Nat)
    (h : c.step i = some j) : c.stack_of (fuel + 1) i = i :: c.stack_of fuel j := by
  rw [Configuration.stack_of, h]

theorem stack_of_ne_nil (c : Configuration) (fuel : Nat) (i : Instance) :
    c.stack_of fuel i ≠ [] := by
  match fuel with
  | 0 => simp [stack_of_zero]
  | fuel + 1 =>
    match hstep : c.step i with
    | none => simp [stack_of_succ_none fuel hstep]
    | some j => simp [stack_of_succ_some fuel hstep]

theorem stack_of_head (c : Configuration) (fuel : Nat) (i : Instance) :
    (c.stack_of fuel i).head? = some i := by
  match fuel with
  | 0 => rfl
  | fuel + 1 =>
    match hstep : c.step i with
    | none => rw [stack_of_succ_none fuel hstep]; rfl
    | some j => rw [stack_of_succ_some fuel hstep]; rfl

theorem stack_of_chain (c : Configuration) :
    ∀ (fuel : Nat) (i : Instance),
      List.Chain' (fun a b => c.step a = some b) (c.stack_of fuel i) := by
  intro fuel
  induction fuel with
  | zero => intro i; simp [stack_of_zero]
  | succ fuel ih =>
    intro i
    match hstep : c.step i with
    | none => simp [stack_of_succ_none fuel hstep]
    | some j =>
      rw [stack_of_succ_some fuel hstep]
      refine List.chain'_cons'.mpr ⟨?_, ih j⟩
      intro b hb
      rw [stack_of_head] at hb
      cases hb
      exact hstep

theorem stack_of_mem (c : Configuration) :
    ∀ (fuel : Nat) (i : Instance), i ∈ c.instances →
      ∀ x ∈ c.stack_of fuel i, x ∈ c.instances := by
  intro fuel
  induction fuel with
  | zero =>
    intro i hi x hx
    rw [stack_of_zero, List.mem_singleton] at hx
    exact hx ▸ hi
  | succ fuel ih =>
    intro i hi x hx
    match hstep : c.step i with
    | none =>
      rw [stack_of_succ_none fuel hstep, List.mem_singleton] at hx
      exact hx ▸ hi
    | some j =>
      rw [stack_of_succ_some fuel hstep, List.mem_cons] at hx
      rcases hx with rfl | hx
      · exact hi
      · exact ih j (step_mem hstep) x hx

/-- Under acyclicity the elements of a stack are pairwise distinct. -/
theorem stack_of_nodup {c : Configuration} (hA : c.Acyclic) (fuel : Nat)
    {i : Instance} (hi : i ∈ c.instances) : (c.stack_of fuel i).Nodup := by
  haveI : IsTrans Instance (Relation.TransGen (fun a b => c.step a = some b)) :=
    ⟨fun _ _ _ hab hbc => hab.trans hbc⟩
  have hchain : List.Chain' (Relation.TransGen (fun a b => c.step a = some b))
      (c.stack_of fuel i) :=
    (stack_of_chain c fuel i).imp (fun _ _ h => Relation.TransGen.single h)
  have hpw := List.chain'_iff_pairwise.mp hchain
  refine List.Pairwise.imp_of_mem ?_ hpw
  intro a b ha hb htg heq
  subst heq
  exact hA a (stack_of_mem c fuel i hi a ha) htg

/-- A stack either ends at an instance with no successor, or used up all
its fuel. -/
theorem stack_of_last_step (c : Configuration) :
    ∀ (fuel : Nat) (i : Instance),
      (∃ last, (c.stack_of fuel i).getLast? = some last ∧ c.step last = none) ∨
      (c.stack_of fuel i).length = fuel + 1 := by
  intro fuel
  induction fuel with
  | zero => intro i; right; rfl
  | succ fuel ih =>
    intro i
    match hstep : c.step i with
    | none =>
      rw [stack_of_succ_none fuel hstep]
      exact Or.inl ⟨i, rfl, hstep⟩
    | some j =>
      rw [stack_of_succ_some fuel hstep]
      rcases ih j with ⟨last, hlast, hnone⟩ | hlen
      · left
        refine ⟨last, ?_, hnone⟩
        rcases hsj : c.stack_of fuel j with _ | ⟨x, s⟩
        · exact absurd hsj (stack_of_ne_nil c fuel j)
        · rw [List.getLast?_cons_cons]
          rw [hsj] at hlast
          exact hlast
      · right
        rw [List.length_cons, hlen]

theorem stack_of_length_le {c : Configuration} (hA : c.Acyclic)
    (fuel : Nat) {i : Instance} (hi : i ∈ c.instances) :
    (c.stack_of fuel i).length ≤ c.instances.length := by
  classical
  have hnd := stack_of_nodup hA fuel hi
  have hsub : ∀ x ∈ c.stack_of fuel i, x ∈ c.instances := stack_of_mem c fuel i hi
  calc (c.stack_of fuel i).length
      = (c.stack_of fuel i).toFinset.card := (List.toFinset_card_of_nodup hnd).symm
    _ ≤ c.instances.toFinset.card := by
        refine Finset.card_le_card ?_
        intro x hx
        rw [List.mem_toFinset] at hx ⊢
        exact hsub x hx
    _ ≤ c.instances.length := List.toFinset_card_le _

/-- Termination: with fuel `instance_count` the stack ends at an
instance with no successor. -/
theorem stack_of_terminal {c : Configuration} (hA : c.Acyclic)
    {i : Instance} (hi : i ∈ c.instances) :
    ∃ last, (c.stack_of c.instance_count i).getLast? = some last ∧ c.step last = none := by
  have hlen_inst : c.instances.length = c.instance_count := by
    rw [Configuration.instances, List.length_map, Configuration.instance_count]
  rcases stack_of_last_step c c.instance_count i with h | hfull
  · exact h
  · have := stack_of_length_le hA c.instance_count hi
    rw [hfull, hlen_inst] at this
    omega

/-- Once a stack has reached its end, more fuel does not change it. -/
theorem stack_of_stable (c : Configuration) :
    ∀ (fuel : Nat) (i : Instance),
      (∃ last, (c.stack_of fuel i).getLast? = some last ∧ c.step last = none) →
      ∀ g, fuel ≤ g → c.stack_of g i = c.stack_of fuel i := by
  intro fuel
  induction fuel with
  | zero =>
    intro i hterm g _
    obtain ⟨last, hlast, hnone⟩ := hterm
    have hli : last = i := by
      rw [stack_of_zero] at hlast
      cases hlast
      rfl
    subst hli
    match g with
    | 0 => rfl
    | g + 1 => rw [stack_of_succ_none g hnone, stack_of_zero]
  | succ fuel ih =>
    intro i hterm g hg
    obtain ⟨last, hlast, hnone⟩ := hterm
    match g, hg with
    | g + 1, hg =>
      match hstep : c.step i with
      | none => rw [stack_of_succ_none g hstep, stack_of_succ_none fuel hstep]
      | some j =>
        rw [stack_of_succ_some fuel hstep] at hlast
        have hterm' : ∃ l', (c.stack_of fuel j).getLast? = some l' ∧ c.step l' = none := by
          refine ⟨last, ?_, hnone⟩
          rcases hsj : c.stack_of fuel j with _ | ⟨x, s⟩
          · exact absurd hsj (stack_of_ne_nil c fuel j)
          · rw [hsj] at hlast
            rw [List.getLast?_cons_cons] at hlast
            exact hlast
        rw [stack_of_succ_some g hstep, stack_of_succ_some fuel hstep,
          ih j hterm' g (by omega)]

/-- A `Bool` sufficient check for acyclicity: from every instance,
iterating `step` `instance_count` times has already run off the end of
the chain. -/
theorem iterStep_succ_none {c : Configuration} {i : Instance} (n : Nat)
    (h : c.step i = none) : c.iterStep (n + 1) i = none := by
  rw [Configuration.iterStep, h]

theorem iterStep_succ_some {c : Configuration} {i j : Instance} (n : Nat)
    (h : c.step i = some j) : c.iterStep (n + 1) i = c.iterStep n j := by
  rw [Configuration.iterStep, h]

theorem acyclic_of_iter_none (c : Configuration)
    (h : c.instances.all (fun i => (c.iterStep c.instance_count i).isNone) = true) :
    c.Acyclic := by
  have iter_add : ∀ (m n : Nat) (i : Instance),
      c.iterStep (m + n) i =
        match c.iterStep m i with
        | none => none
        | some j => c.iterStep n j := by
    intro m
    induction m with
    | zero =>
      intro n i
      rw [Nat.zero_add]
      rfl
    | succ m ih =>
      intro n i
      have hshift : m + 1 + n = (m + n) + 1 := by omega
      match hstep : c.step i with
      | none =>
        rw [hshift, iterStep_succ_none _ hstep, iterStep_succ_none _ hstep]
      | some j =>
        rw [hshift, iterStep_succ_some _ hstep, iterStep_succ_some _ hstep, ih n j]
  have iter_tg : ∀ {i k : Instance},
      Relation.TransGen (fun a b => c.step a = some b) i k →
      ∃ n, 1 ≤ n ∧ c.iterStep n i = some k := by
    intro i k htg
    induction htg with
    | single hstep =>
      refine ⟨1, le_refl 1, ?_⟩
      rw [iterStep_succ_some 0 hstep]
      rfl
    | tail _ hstep ih =>
      obtain ⟨n, hn, hiter⟩ := ih
      refine ⟨n + 1, by omega, ?_⟩
      rw [iter_add n 1, hiter]
      show c.iterStep 1 _ = _
      rw [iterStep_succ_some 0 hstep]
      rfl
  have iter_mono : ∀ {m m' : Nat} {i : Instance},
      c.iterStep m i = none → m ≤ m' → c.iterStep m' i = none := by
    intro m m' i hnone hle
    have : m' = m + (m' - m) := by omega
    rw [this, iter_add, hnone]
  have iter_cycle : ∀ {n : Nat} {i : Instance}, c.iterStep n i = some i →
      ∀ a : Nat, c.iterStep (a * n) i = some i := by
    intro n i hcyc a
    induction a with
    | zero => rw [Nat.zero_mul]; rfl
    | succ a ih =>
      have hmul : (a + 1) * n = a * n + n := by ring
      rw [hmul, iter_add, ih]
      show c.iterStep n i = some i
      exact hcyc
  intro i hi htg
  obtain ⟨n, hn1, hcyc⟩ := iter_tg htg
  have hnone : c.iterStep c.instance_count i = none := by
    have := List.all_eq_true.mp h i hi
    simpa using this
  have hsome := iter_cycle hcyc c.instance_count
  have : c.iterStep (c.instance_count * n) i = none :=
    iter_mono hnone (by nlinarith)
  rw [hsome] at this
  cases this

theorem mem_of_getLast? {α : Type} {l : List α} {a : α}
    (h : l.getLast? = some a) : a ∈ l := by
  rw [List.getLast?_eq_getElem?] at h
  exact List.getElem?_mem h

/-- The instances of the A,B,C example of claim C4:
`A.feature_provider = B`, `C.feature_provider = B`, `B` has none. -/
def insA : Instance := Instance.mk "A" compDb (some "B") [] []

def insB : Instance := Instance.mk "B" compDb none [] []

def insC : Instance := Instance.mk "C" compDb (some "B") [] []

def cfgABC : Configuration := Configuration.make [insA, insB, insC]

/-- Claim C4: `stacks` yields exactly one stack per top instance (an
instance no other instance's `feature_provider` points to), in order;
each stack starts at its top, consecutive elements follow the
`feature_provider` reference, and the bottom instance has no
`feature_provider`; an instance that provides features to several others
appears in several stacks — in the A,B,C example the stacks are exactly
`[A, B]` and `[C, B]`.  (Hypotheses: references resolve within the
configuration, and the `feature_provider` relation is acyclic — with a
cycle the Python loop would not terminate, see C10.) -/
theorem C4_stacks (c : Configuration) (hC : c.Closed) (hA : c.Acyclic) :
    c.stacks.length = c.tops.length ∧
    List.Forall₂ (fun t s => s.head? = some t ∧
        List.Chain' (fun a b => c.step a = some b) s ∧
        ∃ last, s.getLast? = some last ∧ last.feature_provider = none)
      c.tops c.stacks ∧
    cfgABC.stacks = [[insA, insB], [insC, insB]] := by
  refine ⟨by rw [Configuration.stacks, Configuration.stacksFuel, List.length_map], ?_, rfl⟩
  rw [Configuration.stacks, Configuration.stacksFuel, List.forall₂_map_right_iff,
    List.forall₂_same]
  intro t ht
  have htmem : t ∈ c.instances := List.mem_of_mem_filter ht
  obtain ⟨last, hlast, hnone⟩ := stack_of_terminal hA htmem
  refine ⟨stack_of_head c _ t, stack_of_chain c _ t, last, hlast, ?_⟩
  have hlastmem : last ∈ c.instances :=
    stack_of_mem c _ t htmem last (mem_of_getLast? hlast)
  exact step_none_fp hC hlastmem hnone

/-- Witness for C4 at the A,B,C example. -/
theorem C4_witness :
    cfgABC.stacks = [[insA, insB], [insC, insB]] ∧
    cfgABC.stacks.length = cfgABC.tops.length := by
  have h := C4_stacks cfgABC rfl (acyclic_of_iter_none cfgABC rfl)
  exact ⟨h.2.2, h.1⟩

/-- Claim C10: when the `feature_provider` relation between the
instances is acyclic (and references resolve within the configuration),
the `stacks` computation terminates — the fuelled rendering of the
unguarded `while` loop is stable from fuel `instance_count` on — and
every produced stack is a nonempty finite list whose last element has no
`feature_provider`. -/
theorem C10_stacks_terminate (c : Configuration) (hC : c.Closed) (hA : c.Acyclic) :
    (∀ fuel, c.instance_count ≤ fuel → c.stacksFuel fuel = c.stacks) ∧
    (∀ s ∈ c.stacks, s ≠ [] ∧
      ∃ last, s.getLast? = some last ∧ last.feature_provider = none) := by
  constructor
  · intro fuel hf
    rw [Configuration.stacks, Configuration.stacksFuel, Configuration.stacksFuel]
    refine List.map_congr_left ?_
    intro t ht
    have htmem : t ∈ c.instances := List.mem_of_mem_filter ht
    exact stack_of_stable c c.instance_count t (stack_of_terminal hA htmem) fuel hf
  · intro s hs
    rw [Configuration.stacks, Configuration.stacksFuel] at hs
    rcases List.mem_map.mp hs with ⟨t, ht, rfl⟩
    have htmem : t ∈ c.instances := List.mem_of_mem_filter ht
    obtain ⟨last, hlast, hnone⟩ := stack_of_terminal hA htmem
    refine ⟨stack_of_ne_nil c _ t, last, hlast, ?_⟩
    have hlastmem : last ∈ c.instances :=
      stack_of_mem c _ t htmem last (mem_of_getLast? hlast)
    exact step_none_fp hC hlastmem hnone

/-- Witness for C10 at the A,B,C example. -/
theorem C10_witness :
    cfgABC.stacksFuel 5 = cfgABC.stacks ∧
    (∀ s ∈ cfgABC.stacks, s ≠ [] ∧
      ∃ last, s.getLast? = some last ∧ last.feature_provider = none) := by
  have h := C10_stacks_terminate cfgABC rfl (acyclic_of_iter_none cfgABC rfl)
  exact ⟨h.1 5 (by decide), h.2⟩

/-! ## The YAML codec (camp/codecs/yaml.py) -/

/-! The fixed labels of the YAML documents (the `Keys` class). -/

namespace Keys

def COMPONENTS : String := "components"
def CONFIGURATION : String := "configuration"
def CONSTRAINTS : String := "constraints"
def COVERAGE : String := "coverage"
def DEFINITION : String := "definition"
def DOCKER : String := "docker"
def FEATURE_PROVIDER : String := "feature_provider"
def FILE : String := "file"
def GOALS : String := "goals"
def IMAGE : String := "image"
def IMPLEMENTATION : String := "implementation"
def INSTANCES : String := "instances"
def PATTERN : String := "pattern"
def PROVIDES_FEATURES : String := "provides_features"
def PROVIDES_SERVICES : String := "provides_services"
def RANGE : String := "range"
def REALIZATION : String := "realization"
def REPLACEMENTS : String := "replacements"
def REQUIRES_FEATURES : String := "requires_features"
def REQUIRES_SERVICES : String := "requires_services"
def RUNNING : String := "running"
def SERVICE_PROVIDERS : String := "service_providers"
def TARGETS : String := "targets"
def TYPE : String := "type"
def VARIABLES : String := "variables"
def VALUES : String := "values"

end Keys

/-- The `YAMLWarning` hierarchy; the path is the `"/"`-join of its parts,
as built by `YAMLWarning.__init__`. -/
inductive YAMLWarning where
  | ignoredEntry (path : String)
  | wrongType (expected found : String) (path : String)
  | missingEntry (candidates : List String) (path : String)
deriving DecidableEq

def joinPath (parts : List String) : String := String.intercalate "/" parts

/-- `self._ignore(*path)`. -/
def ignoredW (path : List String) : YAMLWarning := .ignoredEntry (joinPath path)

/-- `self._wrong_type(expected, found, *path)` (names of the types, as in
`WrongType.__init__`). -/
def wrongTypeW (expected found : String) (path : List String) : YAMLWarning :=
  .wrongType expected found (joinPath path)

/-- `self._missing(candidates, *path)`. -/
def missingW (candidates : List String) (path : List String) : YAMLWarning :=
  .missingEntry candidates (joinPath path)

/-- The Python exceptions the modelled code can raise. -/
inductive PyErr where
  | attributeError (attr : String)
  | typeError (msg : String)
  | valueError (msg : String)
  | nameError (name : String)
  | keyError (key : String)
  | runtimeError (msg : String)
  | assertionError (msg : String)
  | stopIteration
deriving DecidableEq

/-- Result of a parsing step: the parsed value together with the
warnings the step appended to the codec's list, or a raised exception
together with the warnings appended before the raise.  (The parsing
methods append to `self._warnings` and never read it, so each is modelled
by the warnings it adds; `load_model_from` appends them to the codec's
current list.) -/
def PRes (α : Type) : Type := Except (PyErr × List YAMLWarning) (α × List YAMLWarning)

/-- `YAML._escape`: names that are not strings are prefixed with an
underscore and stringified. -/
def escape (name : Yaml) : String :=
  match name with
  | .str s => s
  | v => "_" ++ pyStr v

/-- `YAML._parse_goals`, loop body.  Note: the running services are built
with `Service(str(each_name))` — plain `str`, not `_escape`. -/
def parse_goals_items : List (String × Yaml) → List Service → List YAMLWarning →
    List Service × List YAMLWarning
  | [], running, ws => (running, ws)
  | (key, item) :: rest, running, ws =>
    if key = Keys.RUNNING then
      match item with
      | .list names =>
        parse_goals_items rest (running ++ names.map (fun e => Service.mk (pyStr e))) ws
      | other =>
        parse_goals_items rest running
          (ws ++ [wrongTypeW "list" other.typeName [Keys.GOALS, key]])
    else
      parse_goals_items rest running (ws ++ [ignoredW [Keys.GOALS, key]])

def parse_goals (entries : List (String × Yaml)) : Goals × List YAMLWarning :=
  let r := parse_goals_items entries [] []
  (Goals.mk r.1 [], r.2)

/-- `YAML._parse_docker`, loop body. -/
def parse_docker_items (name : String) : List (String × Yaml) → Option Implementation →
    List YAMLWarning → Option Implementation × List YAMLWarning
  | [], docker, ws => (docker, ws)
  | (key, item) :: rest, docker, ws =>
    if key = Keys.FILE then
      parse_docker_items name rest (some (.dockerFile (escape item))) ws
    else if key = Keys.IMAGE then
      parse_docker_items name rest (some (.dockerImage (escape item))) ws
    else
      parse_docker_items name rest docker
        (ws ++ [ignoredW [Keys.COMPONENTS, name, Keys.IMPLEMENTATION, Keys.DOCKER, key]])

/-- `YAML._parse_docker`: a non-mapping argument crashes at
`data.items()` (`AttributeError`). -/
def parse_docker (name : String) (data : Yaml) : PRes (Option Implementation) :=
  match data with
  | .map entries =>
    let r := parse_docker_items name entries none []
    if r.1.isNone then
      .ok (r.1, r.2 ++
        [missingW [Keys.FILE, Keys.IMAGE] [Keys.COMPONENTS, name, Keys.IMPLEMENTATION, Keys.DOCKER]])
    else .ok r
  | _ => .error (.attributeError "items", [])

/-- `YAML._parse_implementation`, loop body. -/
def parse_impl_items (name : String) : List (String × Yaml) → Option Implementation →
    List YAMLWarning → PRes (Option Implementation)
  | [], impl, ws => .ok (impl, ws)
  | (key, item) :: rest, impl, ws =>
    if key = Keys.DOCKER then
      match parse_docker name item with
      | .ok (d, ws') => parse_impl_items name rest d (ws ++ ws')
      | .error (e, ws') => .error (e, ws ++ ws')
    else
      parse_impl_items name rest impl
        (ws ++ [ignoredW [Keys.COMPONENTS, name, Keys.IMPLEMENTATION, key]])

def parse_implementation (name : String) (entries : List (String × Yaml)) :
    PRes (Option Implementation) :=
  parse_impl_items name entries none []

def asPyStrings (items : List Yaml) : Option (List String) :=
  items.mapM (fun v => match v with | .str s => some s | _ => none)

/-- The `Substitution` constructor's `isinstance` assertions. -/
def Substitution.make (targets : List Yaml) (pattern : Yaml) (replacements : List Yaml) :
    Except PyErr Substitution :=
  match asPyStrings targets with
  | none => .error (.assertionError "Targets must be string objects!")
  | some ts =>
    match pattern with
    | .str p =>
      match asPyStrings replacements with
      | none => .error (.assertionError "Replacements must be string objects!")
      | some rs => .ok (Substitution.mk ts p rs)
    | _ => .error (.assertionError "Pattern must be a string object")

def UNDEFINED_PATTERN : String := "missing pattern!"

/-- `pattern == self.UNDEFINED_PATTERN` (the parsed pattern may be any
YAML value; only an equal string compares true). -/
def patternUndefined : Yaml → Bool
  | .str p => p == UNDEFINED_PATTERN
  | _ => false

/-- `YAML._parse_substitution`, loop body (state: targets, pattern,
replacements, warnings). -/
def parse_sub_items (path : List String) : List (String × Yaml) →
    List Yaml × Yaml × List Yaml × List YAMLWarning →
    List Yaml × Yaml × List Yaml × List YAMLWarning
  | [], st => st
  | (key, item) :: rest, (targets, pattern, replacements, ws) =>
    if key = Keys.TARGETS then
      match item with
      | .list xs => parse_sub_items path rest (xs, pattern, replacements, ws)
      | other =>
        parse_sub_items path rest
          (targets, pattern, replacements, ws ++ [wrongTypeW "list" other.typeName (path ++ [key])])
    else if key = Keys.PATTERN then
      parse_sub_items path rest (targets, item, replacements, ws)
    else if key = Keys.REPLACEMENTS then
      match item with
      | .list xs => parse_sub_items path rest (targets, pattern, xs, ws)
      | other =>
        parse_sub_items path rest
          (targets, pattern, replacements, ws ++ [wrongTypeW "list" other.typeName (path ++ [key])])
    else
      parse_sub_items path rest (targets, pattern, replacements, ws ++ [ignoredW (path ++ [key])])

/-- `YAML._parse_substitution`: missing-entry checks after the loop, then
the `Substitution` constructor; a non-mapping argument crashes at
`data.items()`. -/
def parse_substitution (component vname : String) (index : Nat) (data : Yaml) :
    PRes Substitution :=
  match data with
  | .map entries =>
    let path := [Keys.COMPONENTS, component, Keys.VARIABLES, vname, Keys.REALIZATION,
      "#" ++ toString index]
    match parse_sub_items path entries ([], .str UNDEFINED_PATTERN, [], []) with
    | (targets, pattern, replacements, ws) =>
      let ws := if targets.isEmpty then ws ++ [missingW [Keys.TARGETS] path] else ws
      let ws := if patternUndefined pattern then ws ++ [missingW [Keys.PATTERN] path] else ws
      let ws := if replacements.isEmpty then ws ++ [missingW [Keys.REPLACEMENTS] path] else ws
      match Substitution.make targets pattern replacements with
      | .ok s => .ok (s, ws)
      | .error e => .error (e, ws)
  | _ => .error (.attributeError "items", [])

/-- Python `isinstance(x, int)` (booleans are ints in Python) together
with the value used in arithmetic. -/
def asPyInt : Yaml → Option Int
  | .int n => some n
  | .bool b => some (if b then 1 else 0)
  | _ => none

/-- `YAML._parse_values`, loop body over a mapping (state: minimum,
maximum, coverage, warnings).  `min(item)`/`max(item)` require a
non-empty sequence of comparable values; outside the numeric scope that
CPython exercises here the exception kind is approximated (CPython may
only raise the `TypeError` later, when `cover` subtracts). -/
def parse_values_items (path : List String) : List (String × Yaml) →
    Option Int × Option Int × Option Int × List YAMLWarning →
    Except (PyErr × List YAMLWarning)
      (Option Int × Option Int × Option Int × List YAMLWarning)
  | [], st => .ok st
  | (key, item) :: rest, (minimum, maximum, coverage, ws) =>
    if key = Keys.RANGE then
      match item with
      | .list xs =>
        match xs.mapM asPyInt with
        | some (n :: ns) =>
          parse_values_items path rest
            (some (ns.foldl min n), some (ns.foldl max n), coverage, ws)
        | some [] => .error (.valueError "empty sequence", ws)
        | none => .error (.typeError "unorderable types", ws)
      | _ => .error (.typeError "not iterable", ws)
    else if key = Keys.COVERAGE then
      match asPyInt item with
      | some n => parse_values_items path rest (minimum, maximum, some n, ws)
      | none =>
        parse_values_items path rest
          (minimum, maximum, coverage, ws ++ [wrongTypeW "int" item.typeName (path ++ [key])])
    else
      parse_values_items path rest (minimum, maximum, coverage, ws ++ [ignoredW (path ++ [key])])

/-- `YAML._parse_values`.  A scalar argument is dead code in the Python
(`type(item)` with `item` unbound: `NameError`); `not coverage` is true
for both a missing and a zero coverage; a negative coverage reaches
`cover`, whose divisor search then raises `StopIteration`. -/
def parse_values (data : Yaml) (path : List String) : PRes (List Yaml) :=
  match data with
  | .list xs => .ok (xs, [])
  | .map entries =>
    match parse_values_items path entries (none, none, none, []) with
    | .error e => .error e
    | .ok (minimum, maximum, coverage, ws) =>
      match minimum, maximum with
      | some mn, some mx =>
        match coverage with
        | none => .ok ([], ws ++ [missingW [Keys.COVERAGE] path])
        | some cov =>
          if cov = 0 then .ok ([], ws ++ [missingW [Keys.COVERAGE] path])
          else
            match Variable.cover mn mx cov with
            | some ints => .ok (ints.map Yaml.int, ws)
            | none => .error (.stopIteration, ws)
      | _, _ => .ok ([], ws ++ [missingW [Keys.RANGE] path])
  | _ => .error (.nameError "item", [])

/-- `for index, each in enumerate(item, 1): ... _parse_substitution`. -/
def parse_sub_list (component vname : String) : Nat → List Yaml → List Substitution →
    List YAMLWarning → Except (PyErr × List YAMLWarning) (List Substitution × List YAMLWarning)
  | _, [], acc, ws => .ok (acc, ws)
  | index, x :: rest, acc, ws =>
    match parse_substitution component vname index x with
    | .ok (s, ws') => parse_sub_list component vname (index + 1) rest (acc ++ [s]) (ws ++ ws')
    | .error (e, ws') => .error (e, ws ++ ws')

/-- `YAML._parse_variable`, loop body (state: declared type, values,
realization, warnings).  The `values`/`type` type-mismatch branches call
`self.wrong_type(...)`, but the method is named `_wrong_type`: CPython
raises `AttributeError` there.  A non-list `realization` is iterated by
`enumerate`: a mapping yields its keys and a string its characters, on
which `_parse_substitution` crashes at `.items()` (when non-empty), and a
scalar raises `TypeError`. -/
def parse_var_items (component vname : String) (path : List String) :
    List (String × Yaml) →
    Option String × List Yaml × List Substitution × List YAMLWarning →
    Except (PyErr × List YAMLWarning)
      (Option String × List Yaml × List Substitution × List YAMLWarning)
  | [], st => .ok st
  | (key, item) :: rest, (vtype, values, realization, ws) =>
    if key = Keys.VALUES then
      match item with
      | .list xs =>
        match parse_values (.list xs) (path ++ [key]) with
        | .ok (vs, ws') => parse_var_items component vname path rest (vtype, vs, realization, ws ++ ws')
        | .error (e, ws') => .error (e, ws ++ ws')
      | .map es =>
        match parse_values (.map es) (path ++ [key]) with
        | .ok (vs, ws') => parse_var_items component vname path rest (vtype, vs, realization, ws ++ ws')
        | .error (e, ws') => .error (e, ws ++ ws')
      | _ => .error (.attributeError "wrong_type", ws)
    else if key = Keys.TYPE then
      match item with
      | .str s => parse_var_items component vname path rest (some s, values, realization, ws)
      | _ => .error (.attributeError "wrong_type", ws)
    else if key = Keys.REALIZATION then
      match item with
      | .list xs =>
        match parse_sub_list component vname 1 xs realization ws with
        | .ok (subs, ws') => parse_var_items component vname path rest (vtype, values, subs, ws')
        | .error e => .error e
      | .map es =>
        if es.isEmpty then parse_var_items component vname path rest (vtype, values, realization, ws)
        else .error (.attributeError "items", ws)
      | .str s =>
        if s.isEmpty then parse_var_items component vname path rest (vtype, values, realization, ws)
        else .error (.attributeError "items", ws)
      | _ => .error (.typeError "not iterable", ws)
    else
      parse_var_items component vname path rest (vtype, values, realization, ws ++ [ignoredW (path ++ [key])])

/-- `YAML._parse_variable`. -/
def parse_variable (component vname : String) (data : Yaml) : PRes Variable :=
  match data with
  | .map entries =>
    match parse_var_items component vname
        [Keys.COMPONENTS, component, Keys.VARIABLES, vname] entries (none, [], [], []) with
    | .ok (vtype, values, realization, ws) => .ok (Variable.mk vname vtype values realization, ws)
    | .error e => .error e
  | _ => .error (.attributeError "items", [])

/-- `YAML._parse_variables`. -/
def parse_vars_items (component : String) : List (String × Yaml) → List Variable →
    List YAMLWarning → Except (PyErr × List YAMLWarning) (List Variable × List YAMLWarning)
  | [], acc, ws => .ok (acc, ws)
  | (key, item) :: rest, acc, ws =>
    match parse_variable component key item with
    | .ok (v, ws') => parse_vars_items component rest (acc ++ [v]) (ws ++ ws')
    | .error (e, ws') => .error (e, ws ++ ws')

def parse_variables (component : String) (entries : List (String × Yaml)) :
    PRes (List Variable) :=
  parse_vars_items component entries [] []

/-- The local accumulators of `YAML._parse_component`. -/
structure CompAcc where
  provided_services : List Service
  required_services : List Service
  provided_features : List Feature
  required_features : List Feature
  vars : List Variable
  implementation : Option Implementation

/-- `YAML._parse_component`, loop body. -/
def parse_comp_items (name : String) : List (String × Yaml) → CompAcc → List YAMLWarning →
    Except (PyErr × List YAMLWarning) (CompAcc × List YAMLWarning)
  | [], acc, ws => .ok (acc, ws)
  | (key, item) :: rest, acc, ws =>
    if key = Keys.PROVIDES_SERVICES then
      match item with
      | .list xs =>
        parse_comp_items name rest
          { acc with provided_services :=
              acc.provided_services ++ xs.map (fun e => Service.mk (escape e)) } ws
      | other =>
        parse_comp_items name rest acc
          (ws ++ [wrongTypeW "list" other.typeName [Keys.COMPONENTS, name, key]])
    else if key = Keys.REQUIRES_SERVICES then
      match item with
      | .list xs =>
        parse_comp_items name rest
          { acc with required_services :=
              acc.required_services ++ xs.map (fun e => Service.mk (escape e)) } ws
      | other =>
        parse_comp_items name rest acc
          (ws ++ [wrongTypeW "list" other.typeName [Keys.COMPONENTS, name, key]])
    else if key = Keys.PROVIDES_FEATURES then
      match item with
      | .list xs =>
        parse_comp_items name rest
          { acc with provided_features :=
              acc.provided_features ++ xs.map (fun e => Feature.mk (escape e)) } ws
      | other =>
        parse_comp_items name rest acc
          (ws ++ [wrongTypeW "list" other.typeName [Keys.COMPONENTS, name, key]])
    else if key = Keys.REQUIRES_FEATURES then
      match item with
      | .list xs =>
        parse_comp_items name rest
          { acc with required_features :=
              acc.required_features ++ xs.map (fun e => Feature.mk (escape e)) } ws
      | other =>
        parse_comp_items name rest acc
          (ws ++ [wrongTypeW "list" other.typeName [Keys.COMPONENTS, name, key]])
    else if key = Keys.VARIABLES then
      match item with
      | .map es =>
        match parse_variables name es with
        | .ok (vs, ws') => parse_comp_items name rest { acc with vars := vs } (ws ++ ws')
        | .error (e, ws') => .error (e, ws ++ ws')
      | other =>
        parse_comp_items name rest acc
          (ws ++ [wrongTypeW "dict" other.typeName [Keys.COMPONENTS, name, key]])
    else if key = Keys.IMPLEMENTATION then
      match item with
      | .map es =>
        match parse_implementation name es with
        | .ok (impl, ws') =>
          parse_comp_items name rest { acc with implementation := impl } (ws ++ ws')
        | .error (e, ws') => .error (e, ws ++ ws')
      | other =>
        parse_comp_items name rest acc
          (ws ++ [wrongTypeW "dict" other.typeName [Keys.COMPONENTS, name, key]])
    else
      parse_comp_items name rest acc (ws ++ [ignoredW [Keys.COMPONENTS, name, key]])

/-- `YAML._parse_component`: a non-mapping body crashes at
`data.items()`. -/
def parse_component (name : String) (data : Yaml) : PRes Component :=
  match data with
  | .map entries =>
    match parse_comp_items name entries (CompAcc.mk [] [] [] [] [] none) [] with
    | .ok (acc, ws) =>
      .ok (Component.make name acc.provided_features acc.required_features
        acc.provided_services acc.required_services acc.vars acc.implementation, ws)
    | .error e => .error e
  | _ => .error (.attributeError "items", [])

/-- `YAML._parse_components`. -/
def parse_comps_items : List (String × Yaml) → List Component → List YAMLWarning →
    Except (PyErr × List YAMLWarning) (List Component × List YAMLWarning)
  | [], acc, ws => .ok (acc, ws)
  | (key, item) :: rest, acc, ws =>
    match parse_component key item with
    | .ok (comp, ws') => parse_comps_items rest (acc ++ [comp]) (ws ++ ws')
    | .error (e, ws') => .error (e, ws ++ ws')

def parse_components (entries : List (String × Yaml)) : PRes (List Component) :=
  parse_comps_items entries [] []

/-- The local accumulators of `YAML.load_model_from`. -/
structure LoadAcc where
  components : List Component
  goals : Goals
  constraints : List Yaml

/-- `YAML.load_model_from`, loop body over the top-level keys. -/
def load_model_items : List (String × Yaml) → LoadAcc → List YAMLWarning →
    Except (PyErr × List YAMLWarning) (LoadAcc × List YAMLWarning)
  | [], acc, ws => .ok (acc, ws)
  | (key, item) :: rest, acc, ws =>
    if key = Keys.COMPONENTS then
      match item with
      | .map es =>
        match parse_components es with
        | .ok (comps, ws') => load_model_items rest { acc with components := comps } (ws ++ ws')
        | .error (e, ws') => .error (e, ws ++ ws')
      | other => load_model_items rest acc (ws ++ [wrongTypeW "dict" other.typeName [key]])
    else if key = Keys.GOALS then
      match item with
      | .map es =>
        let r := parse_goals es
        load_model_items rest { acc with goals := r.1 } (ws ++ r.2)
      | other => load_model_items rest acc (ws ++ [wrongTypeW "dict" other.typeName [key]])
    else if key = Keys.CONSTRAINTS then
      match item with
      | .list xs => load_model_items rest { acc with constraints := acc.constraints ++ xs } ws
      | other => load_model_items rest acc (ws ++ [wrongTypeW "list" other.typeName [key]])
    else
      load_model_items rest acc (ws ++ [ignoredW [key]])

/-- Outcome of `load_model_from`: the model, or the raised
`InvalidYAMLModel` carrying the codec's full warning list. -/
inductive LoadResult where
  | model (m : Model)
  | invalid (warnings : List YAMLWarning)

/-- `YAML.load_model_from` on a codec whose warning list currently holds
`ws0` (a fresh codec has `ws0 = []`); the YAML text layer
(`yaml.safe_load`) is modelled as the already-parsed document `doc`.
After the loop the codec's list is `ws0` extended with this call's
warnings, and `InvalidYAMLModel` is raised iff that list is non-empty. -/
def load_model_from (ws0 : List YAMLWarning) (doc : Yaml) :
    Except (PyErr × List YAMLWarning) LoadResult :=
  match doc with
  | .map entries =>
    match load_model_items entries (LoadAcc.mk [] (Goals.mk [] []) []) [] with
    | .ok (acc, ws) =>
      let wsAll := ws0 ++ ws
      if wsAll.isEmpty then .ok (.model (Model.make acc.components acc.goals acc.constraints))
      else .ok (.invalid wsAll)
    | .error (e, ws) => .error (e, ws0 ++ ws)
  | _ => .error (.attributeError "items", ws0)

/-! ## Claim C2: the collect-then-fail discipline of `load_model_from` -/

/-- The document that defeats claim C2: a variable entry with an unknown
key (recorded as an `Ignored` warning) followed by a non-string `type`. -/
def docC2bug : Yaml :=
  .map [("components", .map [("c", .map [("variables",
    .map [("v", .map [("unknown", .int 1), ("type", .int 42)])])])])]

/-- Claim C2: on a fresh codec, the claim's own examples behave as
stated — a document whose only content is one unknown top-level key
produces exactly one `Ignored` warning and fails with the aggregate
error, and the empty document succeeds — but the "for every model
document ... iff" fails: `_parse_variable` calls the misnamed
`self.wrong_type` (the method is `_wrong_type`), so on `docC2bug` the
loader raises `AttributeError` after recording one warning, and the
aggregate `InvalidYAMLModel` carrying the warning list is never raised. -/
theorem C2_load_warning_discipline :
    load_model_from [] (.map [("unknown_key", .null)]) =
      .ok (.invalid [ignoredW ["unknown_key"]]) ∧
    load_model_from [] (.map []) =
      .ok (.model (Model.make [] (Goals.mk [] []) [])) ∧
    load_model_from [] docC2bug =
      .error (.attributeError "wrong_type",
        [ignoredW ["components", "c", "variables", "v", "unknown"]]) :=
  ⟨rfl, rfl, rfl⟩

/-! ## Claim C7: `_escape` and the goals `running` list -/

/-- Claim C7 is false as stated: a numeric scalar in the goals `running`
list is stored as `str(42) = "42"`, not `"_" + str(42) = "_42"` — the
goals parser uses `str`, not `_escape`. -/
theorem C7_counterexample :
    parse_goals [(Keys.RUNNING, .list [.int 42])] = (Goals.mk [Service.mk "42"] [], []) ∧
    Service.mk "42" ≠ Service.mk ("_" ++ pyStr (.int 42)) :=
  ⟨rfl, by decide⟩

/-- Claim C7, amended: non-string scalars used as names in a component's
`provides_services`/`requires_services`/`provides_features`/
`requires_features` lists are escaped to `"_" + str(name)` and strings
are kept unchanged, with no warning recorded; in the goals `running`
list, however, every name is stringified with plain `str` — without the
underscore — again with no warning. -/
theorem C7_escape (name : String) (l : List Yaml) (h : ∀ e ∈ l, e.isScalar = true) :
    (∀ e ∈ l, e.isStr = false → escape e = "_" ++ pyStr e) ∧
    (∀ s : String, escape (.str s) = s) ∧
    parse_component name (.map [(Keys.PROVIDES_SERVICES, .list l)]) =
      .ok (Component.make name [] [] (l.map (fun e => Service.mk (escape e))) [] [] none, []) ∧
    parse_component name (.map [(Keys.REQUIRES_SERVICES, .list l)]) =
      .ok (Component.make name [] [] [] (l.map (fun e => Service.mk (escape e))) [] none, []) ∧
    parse_component name (.map [(Keys.PROVIDES_FEATURES, .list l)]) =
      .ok (Component.make name (l.map (fun e => Feature.mk (escape e))) [] [] [] [] none, []) ∧
    parse_component name (.map [(Keys.REQUIRES_FEATURES, .list l)]) =
      .ok (Component.make name [] (l.map (fun e => Feature.mk (escape e))) [] [] [] none, []) ∧
    parse_goals [(Keys.RUNNING, .list l)] =
      (Goals.mk (l.map (fun e => Service.mk (pyStr e))) [], []) := by
  refine ⟨?_, fun s => rfl, rfl, rfl, rfl, rfl, rfl⟩
  intro e he hstr
  match e, hstr with
  | .int n, _ => rfl
  | .bool b, _ => rfl
  | .null, _ => rfl
  | .list xs, _ => rfl
  | .map es, _ => rfl

/-- Witness for C7 on a list holding a numeric, a string and a boolean
scalar. -/
theorem C7_witness :
    (∀ e ∈ ([.int 42, .str "db", .bool true] : List Yaml), e.isStr = false →
      escape e = "_" ++ pyStr e) ∧
    (∀ s : String, escape (.str s) = s) ∧
    parse_component "server" (.map [(Keys.PROVIDES_SERVICES,
        .list [.int 42, .str "db", .bool true])]) =
      .ok (Component.make "server" [] []
        ([.int 42, .str "db", .bool true].map (fun e => Service.mk (escape e))) [] [] none, []) ∧
    parse_component "server" (.map [(Keys.REQUIRES_SERVICES,
        .list [.int 42, .str "db", .bool true])]) =
      .ok (Component.make "server" [] [] []
        ([.int 42, .str "db", .bool true].map (fun e => Service.mk (escape e))) [] none, []) ∧
    parse_component "server" (.map [(Keys.PROVIDES_FEATURES,
        .list [.int 42, .str "db", .bool true])]) =
      .ok (Component.make "server"
        ([.int 42, .str "db", .bool true].map (fun e => Feature.mk (escape e))) [] [] [] [] none, []) ∧
    parse_component "server" (.map [(Keys.REQUIRES_FEATURES,
        .list [.int 42, .str "db", .bool true])]) =
      .ok (Component.make "server" []
        ([.int 42, .str "db", .bool true].map (fun e => Feature.mk (escape e))) [] [] [] none, []) ∧
    parse_goals [(Keys.RUNNING, .list [.int 42, .str "db", .bool true])] =
      (Goals.mk ([.int 42, .str "db", .bool true].map (fun e => Service.mk (pyStr e))) [], []) :=
  C7_escape "server" [.int 42, .str "db", .bool true] (by decide)

/-! ## Claim C8: scoping of the codec's warning list -/

/-- Claim C8 is false as stated: a first load that records a warning
leaves it on the codec (`__init__` set the list once and no call resets
it), so a second load of a well-formed document on the same codec raises
`InvalidYAMLModel` — carrying the stale warning — although the same
document succeeds on a fresh codec. -/
theorem C8_counterexample :
    load_model_from [] (.map [("junk", .null)]) = .ok (.invalid [ignoredW ["junk"]]) ∧
    load_model_from [] (.map []) = .ok (.model (Model.make [] (Goals.mk [] []) [])) ∧
    load_model_from [ignoredW ["junk"]] (.map []) = .ok (.invalid [ignoredW ["junk"]]) :=
  ⟨rfl, rfl, rfl⟩

/-- Claim C8, amended: the warning list is scoped to the codec object,
not to a single call: each `load_model_from` decides success from the
warnings accumulated on the codec so far (`ws0`) plus its own, so a load
on a fresh codec behaves per-call, while any later load on a codec that
already holds warnings fails even for a well-formed document, and a
fail's warning list is prefixed by the stale warnings. -/
theorem C8_warnings_codec_scoped (ws0 : List YAMLWarning) (doc : Yaml) :
    (∀ m, load_model_from [] doc = .ok (.model m) →
      load_model_from ws0 doc =
        if ws0.isEmpty then .ok (.model m) else .ok (.invalid ws0)) ∧
    (∀ w, load_model_from [] doc = .ok (.invalid w) →
      load_model_from ws0 doc = .ok (.invalid (ws0 ++ w))) ∧
    (∀ e w, load_model_from [] doc = .error (e, w) →
      load_model_from ws0 doc = .error (e, ws0 ++ w)) ∧
    (∀ m, load_model_from ws0 doc = .ok (.model m) → ws0 = []) := by
  match doc with
  | .str s =>
    refine ⟨fun m h => ?_, fun w h => ?_, fun e w h => ?_, fun m h => ?_⟩
    · cases h
    · cases h
    · cases h
      rw [List.append_nil]
      rfl
    · cases h
  | .int n =>
    refine ⟨fun m h => ?_, fun w h => ?_, fun e w h => ?_, fun m h => ?_⟩
    · cases h
    · cases h
    · cases h
      rw [List.append_nil]
      rfl
    · cases h
  | .bool b =>
    refine ⟨fun m h => ?_, fun w h => ?_, fun e w h => ?_, fun m h => ?_⟩
    · cases h
    · cases h
    · cases h
      rw [List.append_nil]
      rfl
    · cases h
  | .null =>
    refine ⟨fun m h => ?_, fun w h => ?_, fun e w h => ?_, fun m h => ?_⟩
    · cases h
    · cases h
    · cases h
      rw [List.append_nil]
      rfl
    · cases h
  | .list xs =>
    refine ⟨fun m h => ?_, fun w h => ?_, fun e w h => ?_, fun m h => ?_⟩
    · cases h
    · cases h
    · cases h
      rw [List.append_nil]
      rfl
    · cases h
  | .map entries =>
    rw [load_model_from, load_model_from]
    match load_model_items entries (LoadAcc.mk [] (Goals.mk [] []) []) [] with
    | .error (e', w') =>
      refine ⟨fun m h => ?_, fun w h => ?_, fun e w h => ?_, fun m h => ?_⟩
      · cases h
      · cases h
      · cases h; rfl
      · cases h
    | .ok (acc, ws) =>
      simp only [List.nil_append]
      match hws : ws with
      | [] =>
        refine ⟨fun m h => ?_, fun w h => ?_, fun e w h => ?_, fun m h => ?_⟩
        · cases h
          rw [List.append_nil]
        · cases h
        · cases h
        · match hws0 : ws0, h with
          | [], _ => rfl
      | w1 :: wrest =>
        refine ⟨fun m h => ?_, fun w h => ?_, fun e w h => ?_, fun m h => ?_⟩
        · cases h
        · cases h
          rw [if_neg (by simp)]
        · cases h
        · rw [if_neg (by simp)] at h
          cases h

/-- Witness for C8: a stale warning on the codec makes the load of the
well-formed empty document fail with exactly the stale warning. -/
theorem C8_witness :
    load_model_from [ignoredW ["junk"]] (.map []) = .ok (.invalid [ignoredW ["junk"]]) :=
  ((C8_warnings_codec_scoped [ignoredW ["junk"]] (.map [])).1
    (Model.make [] (Goals.mk [] []) []) rfl).trans rfl

/-! ## Saving and loading configurations (claim C3)

`save_configuration` dumps a dictionary through `yaml.dump` and
`load_configuration_from` reads one back through `yaml.safe_load`; the
YAML text layer is the identity on the tree of dicts, lists and scalars
it transports, so the composition is modelled on `Yaml` values directly. -/

/-- `YAML._as_dictionary`, per instance: the keys written for one
instance, in insertion order (`feature_provider` only when set; the
per-variable values keyed by variable name, dict semantics). -/
def instance_as_dict (i : Instance) : List (String × Yaml) :=
  [(Keys.DEFINITION, .str i.definition.name)]
  ++ (match i.feature_provider with
      | some fp => [(Keys.FEATURE_PROVIDER, .str fp)]
      | none => [])
  ++ [(Keys.SERVICE_PROVIDERS, .list (i.service_providers.map Yaml.str))]
  ++ [(Keys.CONFIGURATION,
      .map (pyDict (i.configuration.map (fun p => (p.1.name, p.2)))))]

/-- `YAML._as_dictionary`. -/
def as_dictionary (c : Configuration) : Yaml :=
  .map [(Keys.INSTANCES,
    .map (pyDict (c.instances.map (fun i => (i.name, Yaml.map (instance_as_dict i))))))]

/-- The variable-pairing loop of `YAML._create_instance`: each entry of
the configuration dict is paired with the first variable of the
definition bearing its name; a name with no match raises
`RuntimeError` (fail-fast). -/
def create_configuration_pairs (definition : Component) :
    List (String × Yaml) → Except PyErr (List (Variable × Yaml))
  | [] => .ok []
  | (vn, value) :: rest =>
    match definition.variables.find? (fun v => v.name == vn) with
    | some v =>
      match create_configuration_pairs definition rest with
      | .ok pairs => .ok ((v, value) :: pairs)
      | .error e => .error e
    | none =>
      .error (.runtimeError ("Variable " ++ vn ++ " has no match in the model"))

/-- `YAML._create_instance`: resolve the definition name against the
model (`KeyError` when absent; only a component definition is
representable in the typed model — the Python code would accept a
service or feature here and crash later at `definition.variables`),
then pair the configured values with the declared variables. -/
def create_instance (m : Model) (name : String) (data : Yaml) : Except PyErr Instance :=
  match data with
  | .map d =>
    match dictGet d Keys.DEFINITION with
    | none => .error (.keyError Keys.DEFINITION)
    | some dv =>
      match dv with
      | .str dn =>
        match m.resolve dn with
        | some (.comp comp) =>
          match dictGet d Keys.CONFIGURATION with
          | none => .ok (Instance.mk name comp none [] [])
          | some (.map centries) =>
            match create_configuration_pairs comp centries with
            | .ok pairs => .ok (Instance.mk name comp none [] pairs)
            | .error e => .error e
          | some _ => .error (.attributeError "items")
        | some _ => .error (.attributeError "variables")
        | none => .error (.keyError dn)
      | other => .error (.keyError (pyStr other))
  | _ => .error (.attributeError "items")

/-- The service-provider list comprehension of `YAML._connect_instance`:
each entry is resolved through the configuration, `KeyError` (carrying
the unresolved key) on the first failure. -/
def resolve_providers (cfg : Configuration) : List Yaml → Except PyErr (List String)
  | [] => .ok []
  | x :: rest =>
    match x with
    | .str s =>
      match cfg.resolve s with
      | some p =>
        match resolve_providers cfg rest with
        | .ok names => .ok (p.name :: names)
        | .error e => .error e
      | none => .error (.keyError s)
    | other => .error (.keyError (pyStr other))

/-- `YAML._connect_instance`: the second pass that resolves the
`feature_provider` (skipped when the entry is absent or falsy) and the
`service_providers` of one instance through the configuration
(`KeyError` on a dangling name, fail-fast).  Resolution stores the
found instance, modelled by its name. -/
def connect_instance (cfg : Configuration) (i : Instance) (data : List (String × Yaml)) :
    Except PyErr Instance :=
  let fpStep : Except PyErr (Option String) :=
    match dictGet data Keys.FEATURE_PROVIDER with
    | none => .ok i.feature_provider
    | some v =>
      if v.truthy then
        match v with
        | .str s =>
          match cfg.resolve s with
          | some p => .ok (some p.name)
          | none => .error (.keyError s)
        | other => .error (.keyError (pyStr other))
      else .ok i.feature_provider
  match fpStep with
  | .error e => .error e
  | .ok fp =>
    match dictGet data Keys.SERVICE_PROVIDERS with
    | none => .ok { i with feature_provider := fp }
    | some (.list xs) =>
      match resolve_providers cfg xs with
      | .ok names => .ok { i with feature_provider := fp, service_providers := names }
      | .error e => .error e
    | some _ => .error (.typeError "not iterable")

/-- The list comprehension of `YAML.load_configuration_from` creating
one instance per entry of the `instances` mapping (fail-fast). -/
def create_instances (m : Model) : List (String × Yaml) → Except PyErr (List Instance)
  | [] => .ok []
  | (k, item) :: rest =>
    match create_instance m k item with
    | .ok i =>
      match create_instances m rest with
      | .ok is => .ok (i :: is)
      | .error e => .error e
    | .error e => .error e

/-- The connection loop of `YAML.load_configuration_from`: each created
instance is connected using its own entry of the `instances` mapping,
looked up by name. -/
def connect_instances (cfg : Configuration) (idata : List (String × Yaml)) :
    List Instance → Except PyErr (List Instance)
  | [] => .ok []
  | i :: rest =>
    match dictGet idata i.name with
    | some (.map per) =>
      match connect_instance cfg i per with
      | .ok i' =>
        match connect_instances cfg idata rest with
        | .ok is => .ok (i' :: is)
        | .error e => .error e
      | .error e => .error e
    | some _ => .error (.attributeError "items")
    | none => .error (.keyError i.name)

/-- `YAML.load_configuration_from`: create all instances, then connect
them through the freshly built configuration (the Python mutates the
instances held by the configuration's dict; functionally the dict is
rebuilt from the connected instances, which carry the same names). -/
def load_configuration_from (m : Model) (doc : Yaml) : Except PyErr Configuration :=
  match doc with
  | .map d =>
    match dictGet d Keys.INSTANCES with
    | none => .error (.keyError Keys.INSTANCES)
    | some (.map idata) =>
      match create_instances m idata with
      | .error e => .error e
      | .ok instances =>
        match connect_instances (Configuration.make instances) idata instances with
        | .error e => .error e
        | .ok connected => .ok (Configuration.make connected)
    | some _ => .error (.attributeError "items")
  | _ => .error (.typeError "not subscriptable")

/-! ## Claim C3: the save/load round trip -/

/-- The variable objects a loaded instance carries: each configured pair
re-linked to the definition's variable of the same name (the loader pairs
values with the model's variable objects; only names and values are
observable in the round-trip claim). -/
def relink (d : Component) (pairs : List (Variable × Yaml)) : List (Variable × Yaml) :=
  pairs.map (fun p =>
    match d.variables.find? (fun v => v.name == p.1.name) with
    | some w => (w, p.2)
    | none => p)

theorem relink_names (d : Component) (pairs : List (Variable × Yaml)) :
    (relink d pairs).map (fun p => (p.1.name, p.2)) =
      pairs.map (fun p => (p.1.name, p.2)) := by
  rw [relink, List.map_map]
  refine List.map_congr_left ?_
  intro p _
  rcases hfind : d.variables.find? (fun v => v.name == p.1.name) with _ | w
  · simp [Function.comp, hfind]
  · have hname := List.find?_some hfind
    simp only [beq_iff_eq] at hname
    simp [Function.comp, hfind, hname]

theorem create_pairs_saved (d : Component) :
    ∀ (pairs : List (Variable × Yaml)),
      (∀ p ∈ pairs, ∃ w ∈ d.variables, w.name = p.1.name) →
      create_configuration_pairs d (pairs.map (fun p => (p.1.name, p.2))) =
        .ok (relink d pairs) := by
  intro pairs
  induction pairs with
  | nil => intro _; rfl
  | cons p rest ih =>
    intro hv
    obtain ⟨w, hw, hwname⟩ := hv p (List.mem_cons_self p rest)
    match hfound : d.variables.find? (fun v => v.name == p.1.name) with
    | none =>
      have := List.find?_eq_none.mp hfound w hw
      simp [hwname] at this
    | some w' =>
      have hrest := ih (fun q hq => hv q (List.mem_cons_of_mem p hq))
      rw [List.map_cons]
      simp only [create_configuration_pairs, hfound, hrest]
      simp [relink, hfound]

/-- Phase 1 on a saved instance: `_create_instance` rebuilds the
instance (unconnected) with the same name, the same definition object
and the re-linked configuration pairs. -/
theorem create_instance_saved (m : Model) (i : Instance)
    (hdef : m.component_named i.definition.name = some i.definition)
    (hvars : ∀ p ∈ i.configuration, ∃ w ∈ i.definition.variables, w.name = p.1.name)
    (hvnodup : (i.configuration.map (fun p => p.1.name)).Nodup) :
    create_instance m i.name (.map (instance_as_dict i)) =
      .ok (Instance.mk i.name i.definition none [] (relink i.definition i.configuration)) := by
  have hd : dictGet (instance_as_dict i) Keys.DEFINITION = some (.str i.definition.name) := by
    rfl
  have hc : dictGet (instance_as_dict i) Keys.CONFIGURATION =
      some (.map (pyDict (i.configuration.map (fun p => (p.1.name, p.2))))) := by
    rcases hfp2 : i.feature_provider with _ | n
    · simp only [instance_as_dict, hfp2]
      rfl
    · simp only [instance_as_dict, hfp2]
      rfl
  have hres : m.resolve i.definition.name = some (.comp i.definition) := by
    rw [Model.resolve, hdef]
  have hpy : pyDict (i.configuration.map (fun p => (p.1.name, p.2))) =
      i.configuration.map (fun p => (p.1.name, p.2)) := by
    refine pyDict_eq_self ?_
    rw [List.map_map]
    simpa [Function.comp] using hvnodup
  simp only [create_instance, hd, hres, hc, hpy, create_pairs_saved i.definition _ hvars]

theorem create_instances_saved (m : Model) :
    ∀ (l : List Instance),
      (∀ i ∈ l, m.component_named i.definition.name = some i.definition ∧
        (∀ p ∈ i.configuration, ∃ w ∈ i.definition.variables, w.name = p.1.name) ∧
        (i.configuration.map (fun p => p.1.name)).Nodup) →
      create_instances m (l.map (fun i => (i.name, Yaml.map (instance_as_dict i)))) =
        .ok (l.map (fun i =>
          Instance.mk i.name i.definition none [] (relink i.definition i.configuration))) := by
  intro l
  induction l with
  | nil => intro _; rfl
  | cons i rest ih =>
    intro h
    obtain ⟨h1, h2, h3⟩ := h i (List.mem_cons_self i rest)
    rw [List.map_cons, create_instances, create_instance_saved m i h1 h2 h3,
      ih (fun j hj => h j (List.mem_cons_of_mem i hj))]
    rfl

/-- Resolution by name inside a constructor-built configuration. -/
theorem make_resolve_of_name {l : List Instance} {n : String}
    (h : ∃ j ∈ l, j.name = n) :
    ∃ j', (Configuration.make l).resolve n = some j' ∧ j'.name = n := by
  obtain ⟨j, hj, hn⟩ := h
  have hs := @dictGet_dictOf_isSome Instance Instance.name l n j hj hn
  match hres : (Configuration.make l).resolve n with
  | some j' => exact ⟨j', rfl, (dictGet_dictOf_some hres).1⟩
  | none =>
    have hres' : dictGet (dictOf Instance.name l) n = none := hres
    have hs' : (dictGet (dictOf Instance.name l) n).isSome = true := hs
    rw [hres'] at hs'
    cases hs'

theorem resolve_providers_saved (cfg : Configuration) :
    ∀ (sps : List String),
      (∀ n ∈ sps, ∃ j', cfg.resolve n = some j' ∧ j'.name = n) →
      resolve_providers cfg (sps.map Yaml.str) = .ok sps := by
  intro sps
  induction sps with
  | nil => intro _; rfl
  | cons n rest ih =>
    intro h
    obtain ⟨j', hres, hname⟩ := h n (List.mem_cons_self n rest)
    have hrest := ih (fun q hq => h q (List.mem_cons_of_mem n hq))
    rw [List.map_cons]
    simp only [resolve_providers, hres, hrest, hname]

/-- Phase 2 on a saved instance: `_connect_instance` installs exactly the
saved `feature_provider` and `service_providers` names. -/
theorem connect_instance_saved (cfg : Configuration) (i : Instance)
    (nm : String) (df : Component) (pairs : List (Variable × Yaml))
    (hfp : ∀ n ∈ i.feature_provider.toList, n ≠ "" ∧
      ∃ j', cfg.resolve n = some j' ∧ j'.name = n)
    (hsp : ∀ n ∈ i.service_providers, ∃ j', cfg.resolve n = some j' ∧ j'.name = n) :
    connect_instance cfg (Instance.mk nm df none [] pairs) (instance_as_dict i) =
      .ok (Instance.mk nm df i.feature_provider i.service_providers pairs) := by
  have hrsp := resolve_providers_saved cfg i.service_providers hsp
  match hifp : i.feature_provider with
  | none =>
    have hfpd : dictGet (instance_as_dict i) Keys.FEATURE_PROVIDER = none := by
      simp only [instance_as_dict, hifp]
      rfl
    have hspl : dictGet (instance_as_dict i) Keys.SERVICE_PROVIDERS =
        some (.list (i.service_providers.map Yaml.str)) := by
      simp only [instance_as_dict, hifp]
      rfl
    simp only [connect_instance, hfpd, hspl, hrsp]
  | some n =>
    obtain ⟨hne, j', hres, hname⟩ := hfp n (by rw [hifp]; exact List.mem_singleton.mpr rfl)
    have hfpd : dictGet (instance_as_dict i) Keys.FEATURE_PROVIDER = some (.str n) := by
      simp only [instance_as_dict, hifp]
      rfl
    have hspl : dictGet (instance_as_dict i) Keys.SERVICE_PROVIDERS =
        some (.list (i.service_providers.map Yaml.str)) := by
      simp only [instance_as_dict, hifp]
      rfl
    have htruthy : (Yaml.str n).truthy = true := by
      simp [Yaml.truthy, hne]
    simp only [connect_instance, hfpd, hspl, hrsp, htruthy, if_true, hres, hname]

theorem connect_instances_saved (cfg : Configuration) (idata : List (String × Yaml)) :
    ∀ (l : List Instance),
      (∀ i ∈ l, dictGet idata i.name = some (.map (instance_as_dict i)) ∧
        (∀ n ∈ i.feature_provider.toList, n ≠ "" ∧
          ∃ j', cfg.resolve n = some j' ∧ j'.name = n) ∧
        (∀ n ∈ i.service_providers, ∃ j', cfg.resolve n = some j' ∧ j'.name = n)) →
      connect_instances cfg idata
        (l.map (fun i =>
          Instance.mk i.name i.definition none [] (relink i.definition i.configuration))) =
      .ok (l.map (fun i =>
        Instance.mk i.name i.definition i.feature_provider i.service_providers
          (relink i.definition i.configuration))) := by
  intro l
  induction l with
  | nil => intro _; rfl
  | cons i rest ih =>
    intro h
    obtain ⟨hget, hf, hs⟩ := h i (List.mem_cons_self i rest)
    have hget' : dictGet idata
        (Instance.mk i.name i.definition none [] (relink i.definition i.configuration)).name =
        some (.map (instance_as_dict i)) := hget
    rw [List.map_cons, List.map_cons, connect_instances, hget']
    show (match connect_instance cfg
        (Instance.mk i.name i.definition none [] (relink i.definition i.configuration))
        (instance_as_dict i) with
      | Except.ok i' =>
        match connect_instances cfg idata
          (rest.map (fun j : Instance =>
            Instance.mk j.name j.definition none [] (relink j.definition j.configuration))) with
        | Except.ok is => Except.ok (i' :: is)
        | Except.error e => Except.error e
      | Except.error e => Except.error e) = _
    rw [connect_instance_saved cfg i i.name i.definition (relink i.definition i.configuration) hf hs,
      ih (fun q hq => h q (List.mem_cons_of_mem i hq))]

theorem forall₂_map_self {α β : Type} {R : α → β → Prop} (f : α → β) :
    ∀ {l : List α}, (∀ x ∈ l, R x (f x)) → List.Forall₂ R l (l.map f) := by
  intro l
  induction l with
  | nil => intro _; exact List.Forall₂.nil
  | cons x rest ih =>
    intro h
    exact List.Forall₂.cons (h x (List.mem_cons_self x rest))
      (ih (fun q hq => h q (List.mem_cons_of_mem x hq)))

/-- Claim C3, amended: the saved form of a configuration loads back to a
configuration with the same instance names, definition names,
`feature_provider`/`service_providers` names and variable-name/value
pairs per instance — under the claim's hypotheses (at least one
instance, definitions stored in the model, configured variables declared
by the definition) strengthened by what the code's resolution demands:
per instance, the configured variable names are distinct (the save
writes them into a dict), and every `feature_provider` (non-empty: the
loader skips a falsy one) and service-provider name must be the name of
an instance of the configuration, since the loader resolves these
references through the configuration and raises `KeyError` otherwise
(see the counterexample). -/
theorem C3_roundtrip (m : Model) (c : Configuration)
    (hkeys : ∀ p ∈ c.instances_dict, p.2.name = p.1)
    (hknodup : (c.instances_dict.map Prod.fst).Nodup)
    (hcount : 0 < c.instance_count)
    (hdef : ∀ i ∈ c.instances, m.component_named i.definition.name = some i.definition)
    (hvars : ∀ i ∈ c.instances, ∀ p ∈ i.configuration,
      ∃ w ∈ i.definition.variables, w.name = p.1.name)
    (hvnodup : ∀ i ∈ c.instances, (i.configuration.map (fun p => p.1.name)).Nodup)
    (hfp : ∀ i ∈ c.instances, ∀ n ∈ i.feature_provider.toList,
      n ≠ "" ∧ ∃ j ∈ c.instances, j.name = n)
    (hsp : ∀ i ∈ c.instances, ∀ n ∈ i.service_providers, ∃ j ∈ c.instances, j.name = n) :
    ∃ c', load_configuration_from m (as_dictionary c) = .ok c' ∧
      c'.instances.map Instance.name = c.instances.map Instance.name ∧
      List.Forall₂ (fun i i' =>
        i'.name = i.name ∧ i'.definition.name = i.definition.name ∧
        i'.feature_provider = i.feature_provider ∧
        i'.service_providers = i.service_providers ∧
        i'.configuration.map (fun p => (p.1.name, p.2)) =
          i.configuration.map (fun p => (p.1.name, p.2)))
        c.instances c'.instances := by
  have hnames : c.instances.map Instance.name = c.instances_dict.map Prod.fst := by
    rw [Configuration.instances, List.map_map]
    exact List.map_congr_left (fun p hp => hkeys p hp)
  have hnamesnodup : (c.instances.map Instance.name).Nodup := hnames ▸ hknodup
  have hpairkeys : ((c.instances.map
      (fun i => (i.name, Yaml.map (instance_as_dict i)))).map Prod.fst).Nodup := by
    rw [List.map_map]
    simpa [Function.comp] using hnamesnodup
  have hI : pyDict (c.instances.map (fun i => (i.name, Yaml.map (instance_as_dict i)))) =
      c.instances.map (fun i => (i.name, Yaml.map (instance_as_dict i))) :=
    pyDict_eq_self hpairkeys
  have hcreate := create_instances_saved m c.instances
    (fun i hi => ⟨hdef i hi, hvars i hi, hvnodup i hi⟩)
  have hresolve : ∀ n, (∃ j ∈ c.instances, j.name = n) →
      ∃ j', (Configuration.make (c.instances.map (fun i =>
          Instance.mk i.name i.definition none [] (relink i.definition i.configuration)))).resolve n
        = some j' ∧ j'.name = n := by
    intro n hj
    obtain ⟨j, hjm, hjn⟩ := hj
    exact make_resolve_of_name
      ⟨Instance.mk j.name j.definition none [] (relink j.definition j.configuration),
        List.mem_map.mpr ⟨j, hjm, rfl⟩, hjn⟩
  have hconnect := connect_instances_saved
    (Configuration.make (c.instances.map (fun i =>
      Instance.mk i.name i.definition none [] (relink i.definition i.configuration))))
    (c.instances.map (fun i => (i.name, Yaml.map (instance_as_dict i))))
    c.instances
    (fun i hi => by
      refine ⟨dictGet_of_mem_nodup hpairkeys (List.mem_map.mpr ⟨i, hi, rfl⟩), ?_, ?_⟩
      · intro n hn
        obtain ⟨hne, hex⟩ := hfp i hi n hn
        exact ⟨hne, hresolve n hex⟩
      · intro n hn
        exact hresolve n (hsp i hi n hn))
  have hload : load_configuration_from m (as_dictionary c) =
      .ok (Configuration.make (c.instances.map (fun i =>
        Instance.mk i.name i.definition i.feature_provider i.service_providers
          (relink i.definition i.configuration)))) := by
    rw [as_dictionary, hI]
    have hstep : load_configuration_from m
        (.map [(Keys.INSTANCES, .map (c.instances.map
          (fun i => (i.name, Yaml.map (instance_as_dict i)))))]) =
        (match create_instances m (c.instances.map
            (fun i => (i.name, Yaml.map (instance_as_dict i)))) with
         | Except.error e => Except.error e
         | Except.ok instances =>
           match connect_instances (Configuration.make instances)
               (c.instances.map (fun i => (i.name, Yaml.map (instance_as_dict i)))) instances with
           | Except.error e => Except.error e
           | Except.ok connected => Except.ok (Configuration.make connected)) := rfl
    rw [hstep, hcreate]
    show (match connect_instances (Configuration.make (c.instances.map (fun i =>
        Instance.mk i.name i.definition none [] (relink i.definition i.configuration))))
        (c.instances.map (fun i => (i.name, Yaml.map (instance_as_dict i))))
        (c.instances.map (fun i =>
          Instance.mk i.name i.definition none [] (relink i.definition i.configuration))) with
      | Except.error e => Except.error e
      | Except.ok connected => Except.ok (Configuration.make connected)) = _
    rw [hconnect]
  have hfinalnames : ((c.instances.map (fun i =>
      Instance.mk i.name i.definition i.feature_provider i.service_providers
        (relink i.definition i.configuration))).map Instance.name).Nodup := by
    rw [List.map_map]
    simpa [Function.comp] using hnamesnodup
  have hinst : (Configuration.make (c.instances.map (fun i =>
      Instance.mk i.name i.definition i.feature_provider i.service_providers
        (relink i.definition i.configuration)))).instances =
      c.instances.map (fun i =>
        Instance.mk i.name i.definition i.feature_provider i.service_providers
          (relink i.definition i.configuration)) :=
    dictOf_values Instance.name hfinalnames
  refine ⟨_, hload, ?_, ?_⟩
  · rw [hinst, List.map_map]
    exact List.map_congr_left (fun i _ => rfl)
  · rw [hinst]
    exact forall₂_map_self _ (fun i _ =>
      ⟨rfl, rfl, rfl, rfl, relink_names i.definition i.configuration⟩)

/-- A configuration whose only instance's `feature_provider` references
an instance that is not part of the configuration. -/
def cfgDangling : Configuration :=
  Configuration.make [Instance.mk "a" compDb (some "b") [] []]

/-- Claim C3 is false as stated: `cfgDangling` satisfies every hypothesis
the claim lists (one instance, its definition is a component of the
model, every configured variable — there are none — is declared), yet
loading its saved form raises `KeyError` for the dangling
`feature_provider` name instead of yielding a configuration, because
`_connect_instance` resolves provider names through the configuration. -/
theorem C3_counterexample :
    0 < cfgDangling.instance_count ∧
    (∀ i ∈ cfgDangling.instances,
      modelW.component_named i.definition.name = some i.definition) ∧
    (∀ i ∈ cfgDangling.instances, ∀ p ∈ i.configuration,
      ∃ w ∈ i.definition.variables, w.name = p.1.name) ∧
    load_configuration_from modelW (as_dictionary cfgDangling) = .error (.keyError "b") ∧
    ¬ ∃ c', load_configuration_from modelW (as_dictionary cfgDangling) = .ok c' := by
  refine ⟨by decide, ?_, ?_, rfl, ?_⟩
  · intro i hi
    have hi' : i ∈ [Instance.mk "a" compDb (some "b") [] []] := hi
    rcases List.mem_singleton.mp hi' with rfl
    rfl
  · intro i hi p hp
    have hi' : i ∈ [Instance.mk "a" compDb (some "b") [] []] := hi
    rcases List.mem_singleton.mp hi' with rfl
    cases hp
  · rintro ⟨c', hc'⟩
    rw [show load_configuration_from modelW (as_dictionary cfgDangling) =
      .error (.keyError "b") from rfl] at hc'
    cases hc'

/-- Concrete entities for the C3 witness: a component with one variable,
and a two-instance configuration using a provider reference. -/
def varMemory : Variable := Variable.mk "memory" (some "String") [.str "1GB", .str "2GB"] []

def compServer : Component :=
  Component.make "server" [] [] [Service.mk "Awesome"] [] [varMemory] none

def modelServer : Model :=
  Model.make [compServer] (Goals.mk [Service.mk "Awesome"] []) []

def insServer0 : Instance :=
  Instance.mk "server_0" compServer none [] [(varMemory, .str "2GB")]

def insServer1 : Instance :=
  Instance.mk "server_1" compServer (some "server_0") ["server_0"] []

def cfgServer : Configuration := Configuration.make [insServer0, insServer1]

/-- Witness for C3 on a two-instance configuration with a variable value,
a `feature_provider` and a service provider. -/
theorem C3_witness :
    ∃ c', load_configuration_from modelServer (as_dictionary cfgServer) = .ok c' ∧
      c'.instances.map Instance.name = cfgServer.instances.map Instance.name ∧
      List.Forall₂ (fun i i' =>
        i'.name = i.name ∧ i'.definition.name = i.definition.name ∧
        i'.feature_provider = i.feature_provider ∧
        i'.service_providers = i.service_providers ∧
        i'.configuration.map (fun p => (p.1.name, p.2)) =
          i.configuration.map (fun p => (p.1.name, p.2)))
        cfgServer.instances c'.instances := by
  refine C3_roundtrip modelServer cfgServer (by decide) (by decide) (by decide)
    ?_ ?_ ?_ ?_ ?_
  · intro i hi
    have hi' : i ∈ [insServer0, insServer1] := hi
    rcases List.mem_cons.mp hi' with rfl | hi2
    · rfl
    · rcases List.mem_singleton.mp hi2 with rfl
      rfl
  · intro i hi p hp
    have hi' : i ∈ [insServer0, insServer1] := hi
    rcases List.mem_cons.mp hi' with rfl | hi2
    · have hp' : p ∈ [(varMemory, Yaml.str "2GB")] := hp
      rcases List.mem_singleton.mp hp' with rfl
      exact ⟨varMemory, List.mem_singleton.mpr rfl, rfl⟩
    · rcases List.mem_singleton.mp hi2 with rfl
      cases hp
  · intro i hi
    have hi' : i ∈ [insServer0, insServer1] := hi
    rcases List.mem_cons.mp hi' with rfl | hi2
    · decide
    · rcases List.mem_singleton.mp hi2 with rfl
      decide
  · intro i hi n hn
    have hi' : i ∈ [insServer0, insServer1] := hi
    rcases List.mem_cons.mp hi' with rfl | hi2
    · cases hn
    · rcases List.mem_singleton.mp hi2 with rfl
      have hn' : n ∈ ["server_0"] := hn
      rcases List.mem_singleton.mp hn' with rfl
      exact ⟨by decide, insServer0, List.mem_cons_self _ _, rfl⟩
  · intro i hi n hn
    have hi' : i ∈ [insServer0, insServer1] := hi
    rcases List.mem_cons.mp hi' with rfl | hi2
    · cases hn
    · rcases List.mem_singleton.mp hi2 with rfl
      have hn' : n ∈ ["server_0"] := hn
      rcases List.mem_singleton.mp hn' with rfl
      exact ⟨insServer0, List.mem_cons_self _ _, rfl⟩

/-! ## Claim C6: the realization engine

Modelled from the spec: the realization engine (`camp.realize`, the
`Builder` the tests drive) is not among the sources at hand; the
definitions below follow the specification of
`build(configuration, sourceDir, destinationDir)`: per instance, in
order, (1) copy `template/<component>/` to
`<destination>/images/<instance>/`; (2) for every configured
(variable, value) pair and every substitution on that variable, compute
the replacement index from the value (domain position, or the literal
integer for integer-style variables, mirroring `value_at`), and for each
target path replace every occurrence of the pattern — under the
instance directory when the path starts with the component name, at the
destination root when it is a shared top-level template file (created
from the template on first write, mutated cumulatively); a target that
resolves to no existing file is fatal; (3) copy untouched shared
top-level template files to the destination root unchanged. -/

/-- A flat file tree: `/`-separated relative paths to contents. -/
structure FS where
  entries : List (String × String)

def FS.read (fs : FS) (p : String) : Option String := dictGet fs.entries p

def FS.write (fs : FS) (p : String) (content : String) : FS :=
  ⟨upsert fs.entries p content⟩

/-- Replace every literal occurrence of `pat` in the character list,
left to right and non-overlapping, like Python `str.replace`; the fuel
(the string's length) bounds the recursion. -/
def replaceChars (pat rep : List Char) : Nat → List Char → List Char
  | 0, s => s
  | _ + 1, [] => []
  | fuel + 1, c :: rest =>
    if !pat.isEmpty && pat.isPrefixOf (c :: rest) then
      rep ++ replaceChars pat rep fuel ((c :: rest).drop pat.length)
    else
      c :: replaceChars pat rep fuel rest

def replaceAll (s pat rep : String) : String :=
  ⟨replaceChars pat.data rep.data s.data.length s.data⟩

/-- Split a path into its leading segment and the rest; `none` for a
top-level path (no separator). -/
def splitSeg : List Char → Option (String × String)
  | [] => none
  | c :: rest =>
    if c = '/' then some ("", ⟨rest⟩)
    else
      match splitSeg rest with
      | some (seg, tail) => some (⟨c :: seg.data⟩, tail)
      | none => none

def splitFirst (p : String) : Option (String × String) := splitSeg p.data

/-- Position of a configured value in a domain of scalars. -/
def indexOfValue : List Yaml → Yaml → Option Nat
  | [], _ => none
  | d :: rest, value =>
    if Yaml.scalarEq d value then some 0
    else (indexOfValue rest value).map (· + 1)

/-- Modelled from the spec: the replacement index for a configured value
is its position within the variable's domain, or the literal integer
value when the variable is integer-styled (mirroring `value_at`). -/
def replacementIndex (v : Variable) (value : Yaml) : Option Nat :=
  if v.value_type ≠ some "Integer" ∧ 0 < v.values.length then
    indexOfValue v.values value
  else
    match value with
    | .int n => if 0 ≤ n then some n.toNat else none
    | _ => none

/-- Apply one substitution target for one instance: a component-prefixed
path goes under the instance's `images/` directory; a top-level path is
a shared template file at the destination root; a path that resolves to
no existing file is fatal (`none`). -/
def applyTarget (template dest : FS) (instName compName pattern repl target : String) :
    Option FS :=
  match splitFirst target with
  | some (seg, rest) =>
    if seg = compName then
      let path := "images/" ++ instName ++ "/" ++ rest
      match dest.read path with
      | some content => some (dest.write path (replaceAll content pattern repl))
      | none => none
    else none
  | none =>
    match dest.read target with
    | some content => some (dest.write target (replaceAll content pattern repl))
    | none =>
      match template.read target with
      | some content => some (dest.write target (replaceAll content pattern repl))
      | none => none

def applyTargets (template : FS) (instName compName pattern repl : String) :
    List String → FS → Option FS
  | [], dest => some dest
  | t :: rest, dest =>
    match applyTarget template dest instName compName pattern repl t with
    | some dest' => applyTargets template instName compName pattern repl rest dest'
    | none => none

def applySubstitutions (template : FS) (instName compName : String) (idx : Nat) :
    List Substitution → FS → Option FS
  | [], dest => some dest
  | sub :: rest, dest =>
    match sub.replacements[idx]? with
    | some repl =>
      match applyTargets template instName compName sub.pattern repl sub.targets dest with
      | some dest' => applySubstitutions template instName compName idx rest dest'
      | none => none
    | none => none

def applyVariables (template : FS) (instName compName : String) :
    List (Variable × Yaml) → FS → Option FS
  | [], dest => some dest
  | (v, value) :: rest, dest =>
    match replacementIndex v value with
    | some idx =>
      match applySubstitutions template instName compName idx v.realization dest with
      | some dest' => applyVariables template instName compName rest dest'
      | none => none
    | none => none

/-- Copy the subtree `template/<component>/` to `images/<instance>/`. -/
def copyComponentTree (template : FS) (compName instName : String) (dest : FS) : FS :=
  template.entries.foldl
    (fun d p =>
      match splitFirst p.1 with
      | some (seg, rest) =>
        if seg = compName then d.write ("images/" ++ instName ++ "/" ++ rest) p.2 else d
      | none => d)
    dest

def realizeInstance (template : FS) (i : Instance) (dest : FS) : Option FS :=
  applyVariables template i.name i.definition.name i.configuration
    (copyComponentTree template i.definition.name i.name dest)

def realizeInstances (template : FS) : List Instance → FS → Option FS
  | [], dest => some dest
  | i :: rest, dest =>
    match realizeInstance template i dest with
    | some dest' => realizeInstances template rest dest'
    | none => none

/-- Shared top-level template files not already produced are copied to
the destination root unchanged. -/
def copySharedFiles (template : FS) (dest : FS) : FS :=
  template.entries.foldl
    (fun d p =>
      match splitFirst p.1 with
      | some _ => d
      | none =>
        match d.read p.1 with
        | some _ => d
        | none => d.write p.1 p.2)
    dest

/-- Modelled from the spec: `Builder.build(configuration, source,
destination)` of the absent `camp.realize` module; `template` is the
`template/` subtree of the source directory, the result the destination
tree. -/
def build (c : Configuration) (template : FS) : Option FS :=
  match realizeInstances template c.instances ⟨[]⟩ with
  | some dest => some (copySharedFiles template dest)
  | none => none

/-- The scenario of claim C6: a `server` component whose `memory`
variable has domain `["1GB", "2GB"]` and a substitution targeting the
shared `docker-compose.yml`, and one instance configured with `"2GB"`. -/
def varMemC6 : Variable :=
  Variable.mk "memory" (some "String") [.str "1GB", .str "2GB"]
    [Substitution.mk ["docker-compose.yml"] "mem=XXX" ["mem=1", "mem=2"]]

def compC6 : Component :=
  Component.make "server" [] [] [Service.mk "Awesome"] [] [varMemC6]
    (some (.dockerFile "server/Dockerfile"))

def cfgC6 : Configuration :=
  Configuration.make [Instance.mk "server_0" compC6 none [] [(varMemC6, .str "2GB")]]

def templateC6 : FS :=
  ⟨[("server/Dockerfile", "FROM debian:jessie\nmem=XXX"),
    ("server/server.cfg", "mem=XXX"),
    ("docker-compose.yml", "mem=XXX")]⟩

/-- Claim C6 (spec-modelled): with `targets = [docker-compose.yml]`,
`build` places a shared `docker-compose.yml` at the destination root
containing `mem=2` — the replacement at the index of the configured
value `"2GB"` in the domain (index 1) — and not under `images/`; the
copied per-instance files are otherwise untouched. -/
theorem C6_orchestration_substitution :
    replacementIndex varMemC6 (.str "2GB") = some 1 ∧
    (build cfgC6 templateC6).isSome = true ∧
    ((build cfgC6 templateC6).bind (fun out => out.read "docker-compose.yml"))
      = some "mem=2" ∧
    ((build cfgC6 templateC6).bind (fun out => out.read "images/server_0/docker-compose.yml"))
      = none ∧
    ((build cfgC6 templateC6).bind (fun out => out.read "images/server_0/Dockerfile"))
      = some "FROM debian:jessie\nmem=XXX" ∧
    ((build cfgC6 templateC6).bind (fun out => out.read "images/server_0/server.cfg"))
      = some "mem=XXX" :=
  ⟨rfl, rfl, rfl, rfl, rfl, rfl⟩

end Camp
